import Mathlib

/-!
# czhunian/ThreadPool: a shallow embedding of `threadpool.h` / `threadpool.cpp`

The pool is a record of the private members of `class ThreadPool`.  Three
pieces of process state that the C++ code reads and writes are kept in the
same record so that every member function is a plain state transformer:

* `generateId_`  : the static `Thread::generateId_` (shared by every pool of
  the process);
* `workers`      : the detached OS threads created by `Thread::start`, each
  running `ThreadPool::threadFunc` with its own `threadid`, `lastTime` and
  program point;
* `clock`        : the reading of `std::chrono::high_resolution_clock`, in
  nanoseconds.

A transition is one critical section under `taskQueMtx_` (or one atomic
operation outside it); interleavings are lists of `Event`s.  The counters are
`int` / `std::atomic_int` in the source and `Int` here: no execution considered
below holds 2^31 threads or tasks, so wrap-around is left out.  The one place
where the source converts a signed value to an unsigned one,
`(size_t)taskQueSizeMax_`, is modelled with an explicit `% 2^64`.
-/

namespace ThreadPoolSpec

/-! ## Data model -/

/-- Constant `TASK_MAX_THRESHHOLD` of `threadpool.h`. -/
def TASK_MAX_THRESHHOLD : Int := 2

/-- Constant `THREAD_MAX_THRESHHOLD` of `threadpool.h`. -/
def THREAD_MAX_THRESHHOLD : Int := 1024

/-- Constant `THREAD_MAX_IDLE_TIME` of `threadpool.h` (seconds). -/
def THREAD_MAX_IDLE_TIME : Int := 60

/-- Enumeration `PoolMode` of `threadpool.h`. -/
inductive PoolMode where
  | MODE_FIXED
  | MODE_CACHED
  deriving DecidableEq, Repr

/-- Class `Thread`: the object stored in `threads_`.  Its `func_` member is
always `ThreadPool::threadFunc` bound to the owning pool, so only the id is
kept. -/
structure Thread where
  threadId_ : Int
  deriving DecidableEq, Repr

/-- Result of `condition_variable::wait_for` without a predicate. -/
inductive CvStatus where
  | no_timeout
  | timeout
  deriving DecidableEq, Repr

/-- Program point of an OS thread running `ThreadPool::threadFunc`.

* `spawned`   : created by `Thread::start`, line 79 not yet executed;
* `loopHead`  : about to take `taskQueMtx_` at line 87;
* `waitFor`   : blocked in `notEmpty_.wait_for(lock, 1s)` (line 111);
* `waitPlain` : blocked in `notEmpty_.wait(lock)` (line 132);
* `running t` : the lock is released and the local `task` is `t`
  (lines 157 to 160). -/
inductive Pc (τ : Type) where
  | spawned
  | loopHead
  | waitFor
  | waitPlain
  | running (task : τ)
  deriving DecidableEq, Repr

/-- One detached OS thread: the argument `threadid` of `threadFunc`, its local
`lastTime` and its program point. -/
structure Worker (τ : Type) where
  threadid : Int
  lastTime : Int
  pc : Pc τ
  deriving DecidableEq, Repr

/-- Members of `class ThreadPool`, followed by the process state it shares
(`generateId_`, the live worker threads, the clock). -/
structure ThreadPool (τ : Type) where
  threads_ : List (Int × Thread)
  initThreadSize_ : Int
  threadSizeMax_ : Int
  curThreadSize_ : Int
  idleThreadSize_ : Int
  taskQue_ : List τ
  taskSize_ : Int
  taskQueSizeMax_ : Int
  poolMode_ : PoolMode
  isPoolRunning_ : Bool
  generateId_ : Int
  workers : List (Worker τ)
  clock : Int
  deriving DecidableEq, Repr

/-- What a blocking `get()` on a `std::future` can find in the shared state:
the packaged task of a queued submission (not run yet), a stored value, or a
stored exception. -/
inductive Future (τ ρ : Type) where
  | ofTask (task : τ)
  | value (v : ρ)
  | exception (what : Nat)
  deriving DecidableEq, Repr

/-- Undefined behaviour reached by the code: `threads_[key]->start()` where
`operator[]` has just inserted an empty `unique_ptr` for a missing `key`. -/
inductive Fault where
  | nullThread (key : Int)
  deriving DecidableEq, Repr

/-! ## `std::unordered_map<int, std::unique_ptr<Thread>>` -/

/-- Lookup of a key (`find`). -/
def mapFind : List (Int × Thread) → Int → Option Thread
  | [], _ => none
  | (k, v) :: rest, key => if k = key then some v else mapFind rest key

/-- Member `emplace`: inserts only when the key is absent. -/
def mapEmplace (m : List (Int × Thread)) (key : Int) (v : Thread) : List (Int × Thread) :=
  match mapFind m key with
  | some _ => m
  | none => (key, v) :: m

/-- Member `erase(key)`. -/
def mapErase : List (Int × Thread) → Int → List (Int × Thread)
  | [], _ => []
  | (k, v) :: rest, key => if k = key then mapErase rest key else (k, v) :: mapErase rest key

/-! ## The set of live worker threads -/

/-- The worker running `threadFunc(threadid)`. -/
def findWorker {τ : Type} : List (Worker τ) → Int → Option (Worker τ)
  | [], _ => none
  | w :: rest, threadid => if w.threadid = threadid then some w else findWorker rest threadid

/-- The worker `threadid` moves to a new local state. -/
def setWorker {τ : Type} : List (Worker τ) → Int → Worker τ → List (Worker τ)
  | [], _, _ => []
  | w :: rest, threadid, w1 =>
    if w.threadid = threadid then w1 :: rest else w :: setWorker rest threadid w1

/-- The worker `threadid` returns from `threadFunc`. -/
def removeWorker {τ : Type} : List (Worker τ) → Int → List (Worker τ)
  | [], _ => []
  | w :: rest, threadid =>
    if w.threadid = threadid then rest else w :: removeWorker rest threadid

/-! ## Construction and configuration -/

/-- Constructor `ThreadPool::ThreadPool()`, in a process whose id generator
stands at `g` and whose clock reads `now`. -/
def ThreadPool.new (τ : Type) (g now : Int) : ThreadPool τ :=
  { threads_ := []
    initThreadSize_ := 0
    threadSizeMax_ := THREAD_MAX_THRESHHOLD
    curThreadSize_ := 0
    idleThreadSize_ := 0
    taskQue_ := []
    taskSize_ := 0
    taskQueSizeMax_ := TASK_MAX_THRESHHOLD
    poolMode_ := PoolMode.MODE_FIXED
    isPoolRunning_ := false
    generateId_ := g
    workers := []
    clock := now }

/-- Member `checkRunningState`. -/
def checkRunningState {τ : Type} (s : ThreadPool τ) : Bool := s.isPoolRunning_

/-- Member `setMode`. -/
def setMode {τ : Type} (s : ThreadPool τ) (mode : PoolMode) : ThreadPool τ :=
  if checkRunningState s then s else { s with poolMode_ := mode }

/-- Member `setTaskQueMaxThreshHold`. -/
def setTaskQueMaxThreshHold {τ : Type} (s : ThreadPool τ) (threshhold : Int) : ThreadPool τ :=
  if checkRunningState s then s else { s with taskQueSizeMax_ := threshhold }

/-- Member `setThreadSizeThreshHold`. -/
def setThreadSizeThreshHold {τ : Type} (s : ThreadPool τ) (threshhold : Int) : ThreadPool τ :=
  if checkRunningState s then s
  else if s.poolMode_ = PoolMode.MODE_CACHED then { s with threadSizeMax_ := threshhold }
  else s

/-! ## Creating and launching workers -/

/-- The statements `make_unique<Thread>(...)`, `getId()` and
`threads_.emplace(threadId, ...)`: the constructor of `Thread` draws
`generateId_++`. -/
def createThread {τ : Type} (s : ThreadPool τ) : ThreadPool τ :=
  { s with
    threads_ := mapEmplace s.threads_ s.generateId_ { threadId_ := s.generateId_ }
    generateId_ := s.generateId_ + 1 }

/-- The expression `threads_[key]->start()`: a detached thread begins
`threadFunc(threadId_)`; a missing key is a null dereference. -/
def launch {τ : Type} (s : ThreadPool τ) (key : Int) : Except Fault (ThreadPool τ) :=
  match mapFind s.threads_ key with
  | none => Except.error (Fault.nullThread key)
  | some th =>
    Except.ok { s with
      workers := { threadid := th.threadId_, lastTime := 0, pc := Pc.spawned } :: s.workers }

/-- First loop of `start` (lines 61 to 66), `k` iterations left. -/
def createThreads {τ : Type} : Nat → ThreadPool τ → ThreadPool τ
  | 0, s => s
  | k + 1, s => createThreads k (createThread s)

/-- Second loop of `start` (lines 69 to 73), `k` iterations left, loop
variable `i`. -/
def startThreads {τ : Type} : Nat → Int → ThreadPool τ → Except Fault (ThreadPool τ)
  | 0, _, s => Except.ok s
  | k + 1, i, s =>
    match launch s i with
    | Except.error f => Except.error f
    | Except.ok s1 =>
      startThreads k (i + 1) { s1 with idleThreadSize_ := s1.idleThreadSize_ + 1 }

/-- Member `start`. -/
def start {τ : Type} (s : ThreadPool τ) (initThreadSize : Int) : Except Fault (ThreadPool τ) :=
  let s1 := { s with
    isPoolRunning_ := true
    initThreadSize_ := initThreadSize
    curThreadSize_ := initThreadSize }
  startThreads initThreadSize.toNat 0 (createThreads initThreadSize.toNat s1)

/-! ## Submission -/

/-- The conversion `(size_t)x` of an `int` on a 64-bit target. -/
def toSizeT (x : Int) : Int := x % 2 ^ 64

/-- The predicate of `notFull_.wait_for` (line 101). -/
def notFull {τ : Type} (s : ThreadPool τ) : Bool :=
  decide ((s.taskQue_.length : Int) < toSizeT s.taskQueSizeMax_)

/-- Lines 111 and 112: `taskQue_.emplace(...)` and `taskSize_++`. -/
def enqueue {τ : Type} (s : ThreadPool τ) (task : τ) : ThreadPool τ :=
  { s with taskQue_ := s.taskQue_ ++ [task], taskSize_ := s.taskSize_ + 1 }

/-- The condition of elastic growth (lines 117 to 119). -/
def needsThread {τ : Type} (s : ThreadPool τ) : Bool :=
  decide (s.poolMode_ = PoolMode.MODE_CACHED) && decide (s.taskSize_ > s.idleThreadSize_)
    && decide (s.curThreadSize_ < s.threadSizeMax_)

/-- Member template `submitTask` with result type `ρ`, taken at the moment
`wait_for` returns; `default` is the value-initialised `RType()`.  The pair is
the pool afterwards and the shared state of the returned future. -/
def submitTask {τ : Type} (ρ : Type) [Inhabited ρ] (s : ThreadPool τ) (task : τ) :
    Except Fault (ThreadPool τ × Future τ ρ) :=
  if notFull s then
    let s1 := enqueue s task
    if needsThread s1 then
      let threadId := s1.generateId_
      match launch (createThread s1) threadId with
      | Except.error f => Except.error f
      | Except.ok s2 =>
        Except.ok ({ s2 with
          curThreadSize_ := s2.curThreadSize_ + 1
          idleThreadSize_ := s2.idleThreadSize_ + 1 }, Future.ofTask task)
    else Except.ok (s1, Future.ofTask task)
  else
    -- lines 104 to 108: a second packaged task returning RType() is run on the spot
    Except.ok (s, Future.value default)

/-! ## The worker function -/

/-- Lines 100 to 104: exit because the pool is stopping. -/
def exitStopped {τ : Type} (s : ThreadPool τ) (threadid : Int) : ThreadPool τ :=
  { s with
    threads_ := mapErase s.threads_ threadid
    workers := removeWorker s.workers threadid }

/-- Lines 120 to 125: exit of an idle worker. -/
def exitIdle {τ : Type} (s : ThreadPool τ) (threadid : Int) : ThreadPool τ :=
  { s with
    threads_ := mapErase s.threads_ threadid
    curThreadSize_ := s.curThreadSize_ - 1
    idleThreadSize_ := s.idleThreadSize_ - 1
    workers := removeWorker s.workers threadid }

/-- Whole seconds between `lastTime` and now
(`duration_cast<seconds>(now - lastTime).count()`). -/
def idleSeconds {τ : Type} (s : ThreadPool τ) (w : Worker τ) : Int :=
  Int.tdiv (s.clock - w.lastTime) 1000000000

/-- The test of `while (taskQue_.size() == 0)` with the lock held, and what
follows it up to the next wait, return, or release of the lock (lines 95 to
154).  The second component is the task taken from the queue, if any. -/
def fetchTask {τ : Type} (s : ThreadPool τ) (w : Worker τ) : ThreadPool τ × Option τ :=
  match s.taskQue_ with
  | [] =>
    if !s.isPoolRunning_ then (exitStopped s w.threadid, none)
    else if s.poolMode_ = PoolMode.MODE_CACHED then
      ({ s with workers := setWorker s.workers w.threadid { w with pc := Pc.waitFor } }, none)
    else
      ({ s with workers := setWorker s.workers w.threadid { w with pc := Pc.waitPlain } }, none)
  | task :: rest =>
    ({ s with
        idleThreadSize_ := s.idleThreadSize_ - 1
        taskQue_ := rest
        taskSize_ := s.taskSize_ - 1
        workers := setWorker s.workers w.threadid { w with pc := Pc.running task } },
      some task)

/-- The test of lines 115 and 116 after a `wait_for` that returned `status`. -/
def idleTooLong {τ : Type} (s : ThreadPool τ) (w : Worker τ) (status : CvStatus) : Bool :=
  decide (status = CvStatus.timeout) && decide (idleSeconds s w ≥ THREAD_MAX_IDLE_TIME)
    && decide (s.curThreadSize_ > s.initThreadSize_)

/-- One step of the thread running `threadFunc(threadid)`; `status` is what
`wait_for` returns when the thread is blocked in it. -/
def threadFunc {τ : Type} (s : ThreadPool τ) (threadid : Int) (status : CvStatus) :
    ThreadPool τ × Option τ :=
  match findWorker s.workers threadid with
  | none => (s, none)
  | some w =>
    match w.pc with
    | Pc.spawned =>
      ({ s with
          workers := setWorker s.workers threadid { w with lastTime := s.clock, pc := Pc.loopHead } },
        none)
    | Pc.loopHead => fetchTask s w
    | Pc.waitFor => if idleTooLong s w status then (exitIdle s threadid, none) else fetchTask s w
    | Pc.waitPlain => fetchTask s w
    | Pc.running _ =>
      ({ s with
          idleThreadSize_ := s.idleThreadSize_ + 1
          workers := setWorker s.workers threadid { w with lastTime := s.clock, pc := Pc.loopHead } },
        none)

/-- First statement of the destructor (line 19). -/
def stop {τ : Type} (s : ThreadPool τ) : ThreadPool τ := { s with isPoolRunning_ := false }

/-! ## Interleavings -/

/-- Atomic steps of a process that owns the pool. -/
inductive Event (τ : Type) where
  | setMode (mode : PoolMode)
  | setTaskQueMaxThreshHold (threshhold : Int)
  | setThreadSizeThreshHold (threshhold : Int)
  | start (initThreadSize : Int)
  | submitTask (task : τ)
  | threadFunc (threadid : Int) (status : CvStatus)
  | tick (d : Nat)
  | stop
  deriving DecidableEq, Repr

/-- Effect of one event. -/
def step {τ : Type} (s : ThreadPool τ) : Event τ → Except Fault (ThreadPool τ)
  | Event.setMode mode => Except.ok (setMode s mode)
  | Event.setTaskQueMaxThreshHold n => Except.ok (setTaskQueMaxThreshHold s n)
  | Event.setThreadSizeThreshHold n => Except.ok (setThreadSizeThreshHold s n)
  | Event.start n => start s n
  | Event.submitTask task =>
    match submitTask Unit s task with
    | Except.error f => Except.error f
    | Except.ok r => Except.ok r.1
  | Event.threadFunc threadid status => Except.ok (threadFunc s threadid status).1
  | Event.tick d => Except.ok { s with clock := s.clock + d }
  | Event.stop => Except.ok (stop s)

/-- Effect of a list of events, first to last. -/
def run {τ : Type} : ThreadPool τ → List (Event τ) → Except Fault (ThreadPool τ)
  | s, [] => Except.ok s
  | s, e :: es =>
    match step s e with
    | Except.error f => Except.error f
    | Except.ok s1 => run s1 es

/-- The task an event appends to `taskQue_` (line 111), if any. -/
def enqueuedBy {τ : Type} (s : ThreadPool τ) : Event τ → List τ
  | Event.submitTask task =>
    match submitTask Unit s task with
    | Except.ok (_, Future.ofTask t) => [t]
    | _ => []
  | _ => []

/-- The task an event pops from `taskQue_` (lines 142 and 143), if any. -/
def dequeuedBy {τ : Type} (s : ThreadPool τ) : Event τ → List τ
  | Event.threadFunc threadid status => (threadFunc s threadid status).2.toList
  | _ => []

/-- Tasks appended along a run, in order. -/
def enqueuedSeq {τ : Type} : ThreadPool τ → List (Event τ) → List τ
  | _, [] => []
  | s, e :: es =>
    match step s e with
    | Except.error _ => []
    | Except.ok s1 => enqueuedBy s e ++ enqueuedSeq s1 es

/-- Tasks popped along a run, in order. -/
def dequeuedSeq {τ : Type} : ThreadPool τ → List (Event τ) → List τ
  | _, [] => []
  | s, e :: es =>
    match step s e with
    | Except.error _ => []
    | Except.ok s1 => dequeuedBy s e ++ dequeuedSeq s1 es

/-- Configuration calls. -/
def Event.isConfig {τ : Type} : Event τ → Bool
  | Event.setMode _ => true
  | Event.setTaskQueMaxThreshHold _ => true
  | Event.setThreadSizeThreshHold _ => true
  | _ => false

/-- Steps of a started pool: submissions, worker steps, the passing of time,
and configuration calls (which a running pool ignores). -/
def Event.isPoolStep {τ : Type} : Event τ → Bool
  | Event.start _ => false
  | Event.stop => false
  | _ => true

/-- Whether a program point lies between the pop of a task and the
increment of `idleThreadSize_` that follows its execution. -/
def Pc.holdsTask {τ : Type} : Pc τ → Bool
  | Pc.running _ => true
  | _ => false

/-- Number of workers that hold a task. -/
def busy {τ : Type} (ws : List (Worker τ)) : Nat :=
  ws.countP (fun w => w.pc.holdsTask)

/-- A pool on which nothing but configuration calls has happened since its
construction. -/
def Configured {τ : Type} (s : ThreadPool τ) : Prop :=
  s.isPoolRunning_ = false ∧ s.threads_ = [] ∧ s.workers = [] ∧ s.taskQue_ = [] ∧
    s.taskSize_ = 0 ∧ s.idleThreadSize_ = 0 ∧ s.curThreadSize_ = 0 ∧ s.initThreadSize_ = 0

/-- Pool with the default capacity 2 and two queued tasks, not started. -/
def fullPool : ThreadPool Nat :=
  { ThreadPool.new Nat 0 0 with taskQue_ := [1, 2], taskSize_ := 2 }

/-- Fixed pool of one worker at its loop head, one queued task, running flag
cleared. -/
def stoppedPool : ThreadPool Nat :=
  { ThreadPool.new Nat 0 0 with
    threads_ := [(0, { threadId_ := 0 })]
    initThreadSize_ := 1
    curThreadSize_ := 1
    idleThreadSize_ := 1
    taskQue_ := [7]
    taskSize_ := 1
    generateId_ := 1
    workers := [{ threadid := 0, lastTime := 0, pc := Pc.loopHead }] }

/-- Weight of a worker in `busy`. -/
def busyOne {τ : Type} (w : Worker τ) : Nat := if w.pc.holdsTask then 1 else 0

/-- What the second loop of `start`, run for `k` iterations from `s`, leaves in
`t`: `k` more workers, all of them spawned, `k` more idle threads, the other
members as they were. -/
structure Launched {τ : Type} (k : Nat) (s t : ThreadPool τ) : Prop where
  threads_ : t.threads_ = s.threads_
  generateId_ : t.generateId_ = s.generateId_
  initThreadSize_ : t.initThreadSize_ = s.initThreadSize_
  threadSizeMax_ : t.threadSizeMax_ = s.threadSizeMax_
  curThreadSize_ : t.curThreadSize_ = s.curThreadSize_
  idleThreadSize_ : t.idleThreadSize_ = s.idleThreadSize_ + k
  taskQue_ : t.taskQue_ = s.taskQue_
  taskSize_ : t.taskSize_ = s.taskSize_
  taskQueSizeMax_ : t.taskQueSizeMax_ = s.taskQueSizeMax_
  poolMode_ : t.poolMode_ = s.poolMode_
  isPoolRunning_ : t.isPoolRunning_ = s.isPoolRunning_
  clock : t.clock = s.clock
  length : t.workers.length = s.workers.length + k
  busy : busy t.workers = busy s.workers
  fresh : ∀ w ∈ t.workers, w ∈ s.workers ∨ w.pc = Pc.spawned

/-- The cases of one step of `threadFunc(threadid)` from `s`: the pool
afterwards and the task taken. -/
inductive WorkerStep {τ : Type} (s : ThreadPool τ) (threadid : Int) (status : CvStatus) :
    ThreadPool τ → Option τ → Prop where
  | absent : findWorker s.workers threadid = none → WorkerStep s threadid status s none
  | enter (w : Worker τ) : findWorker s.workers threadid = some w → w.pc = Pc.spawned →
      WorkerStep s threadid status
        { s with workers := setWorker s.workers threadid
                  { w with lastTime := s.clock, pc := Pc.loopHead } } none
  | finish (w : Worker τ) (task : τ) : findWorker s.workers threadid = some w →
      w.pc = Pc.running task →
      WorkerStep s threadid status
        { s with
          idleThreadSize_ := s.idleThreadSize_ + 1
          workers := setWorker s.workers threadid
                  { w with lastTime := s.clock, pc := Pc.loopHead } } none
  | idleExit (w : Worker τ) : findWorker s.workers threadid = some w → w.pc = Pc.waitFor →
      idleTooLong s w status = true →
      WorkerStep s threadid status (exitIdle s threadid) none
  | stopExit (w : Worker τ) : findWorker s.workers threadid = some w →
      w.pc.holdsTask = false → s.taskQue_ = [] → s.isPoolRunning_ = false →
      WorkerStep s threadid status (exitStopped s threadid) none
  | waitTimed (w : Worker τ) : findWorker s.workers threadid = some w →
      w.pc.holdsTask = false → s.taskQue_ = [] → s.isPoolRunning_ = true →
      s.poolMode_ = PoolMode.MODE_CACHED →
      WorkerStep s threadid status
        { s with workers := setWorker s.workers threadid { w with pc := Pc.waitFor } } none
  | waitUntimed (w : Worker τ) : findWorker s.workers threadid = some w →
      w.pc.holdsTask = false → s.taskQue_ = [] → s.isPoolRunning_ = true →
      s.poolMode_ = PoolMode.MODE_FIXED →
      WorkerStep s threadid status
        { s with workers := setWorker s.workers threadid { w with pc := Pc.waitPlain } } none
  | dequeue (w : Worker τ) (task : τ) (rest : List τ) :
      findWorker s.workers threadid = some w →
      w.pc.holdsTask = false → s.taskQue_ = task :: rest →
      WorkerStep s threadid status
        { s with
          idleThreadSize_ := s.idleThreadSize_ - 1
          taskQue_ := rest
          taskSize_ := s.taskSize_ - 1
          workers := setWorker s.workers threadid { w with pc := Pc.running task } }
        (some task)

/-- Counter invariant of a started pool: the threads counted as busy are the
workers that hold a task, and no worker is uncounted. -/
structure InvCount {τ : Type} (s : ThreadPool τ) : Prop where
  running : s.isPoolRunning_ = true
  sum : s.idleThreadSize_ + busy s.workers = s.curThreadSize_
  len : (s.workers.length : Int) ≤ s.curThreadSize_
  ceil : s.curThreadSize_ ≤ max s.initThreadSize_ s.threadSizeMax_

/-- Queue invariant of a started pool with configured capacity `c`. -/
structure InvQueue {τ : Type} (c : Int) (s : ThreadPool τ) : Prop where
  running : s.isPoolRunning_ = true
  cap : s.taskQueSizeMax_ = c
  size : s.taskSize_ = s.taskQue_.length
  bound : 0 ≤ c → (s.taskQue_.length : Int) ≤ c

/-- Mode invariant of a pool started with `n` threads in mode `m`. -/
structure InvMode {τ : Type} (n : Int) (m : PoolMode) (s : ThreadPool τ) : Prop where
  running : s.isPoolRunning_ = true
  init : s.initThreadSize_ = n
  mode : s.poolMode_ = m
  floor : n ≤ s.curThreadSize_
  timed : ∀ w ∈ s.workers, w.pc = Pc.waitFor → m = PoolMode.MODE_CACHED
  fixed : m = PoolMode.MODE_FIXED → s.curThreadSize_ = n

/-- Every key of the worker mapping was drawn from the id generator. -/
def FreshIds {τ : Type} (s : ThreadPool τ) : Prop :=
  ∀ p ∈ s.threads_, p.1 < s.generateId_

/-- Configuration calls of the Cached example: capacity 3, at most 4 threads. -/
def cachedSetup : List (Event Nat) :=
  [Event.setMode PoolMode.MODE_CACHED, Event.setTaskQueMaxThreshHold 3,
    Event.setThreadSizeThreshHold 4]

/-- The pool after `cachedSetup`. -/
def cachedConfig : ThreadPool Nat :=
  { ThreadPool.new Nat 0 0 with
    threadSizeMax_ := 4
    taskQueSizeMax_ := 3
    poolMode_ := PoolMode.MODE_CACHED }

/-- Steps of the Cached example after `start(1)`: worker 0 enters its loop, two
submissions (the second one adds worker 1), both workers take a task, worker 0
finishes its task and waits, 61 seconds pass. -/
def cachedSteps : List (Event Nat) :=
  [Event.threadFunc 0 CvStatus.no_timeout, Event.submitTask 10, Event.submitTask 11,
    Event.threadFunc 0 CvStatus.no_timeout, Event.threadFunc 1 CvStatus.no_timeout,
    Event.threadFunc 1 CvStatus.no_timeout, Event.threadFunc 0 CvStatus.no_timeout,
    Event.threadFunc 0 CvStatus.no_timeout, Event.tick 61000000000]

/-- The pool after `cachedSetup`, `start(1)` and `cachedSteps`. -/
def cachedPool : ThreadPool Nat :=
  { threads_ := [(1, { threadId_ := 1 }), (0, { threadId_ := 0 })]
    initThreadSize_ := 1
    threadSizeMax_ := 4
    curThreadSize_ := 2
    idleThreadSize_ := 1
    taskQue_ := []
    taskSize_ := 0
    taskQueSizeMax_ := 3
    poolMode_ := PoolMode.MODE_CACHED
    isPoolRunning_ := true
    generateId_ := 2
    workers := [{ threadid := 1, lastTime := 0, pc := Pc.running 11 },
                { threadid := 0, lastTime := 0, pc := Pc.waitFor }]
    clock := 61000000000 }

/-- Steps of the Fixed example after `start(2)`: worker 0 enters its loop, one
submission, worker 0 takes the task, finishes it and waits. -/
def fixedSteps : List (Event Nat) :=
  [Event.threadFunc 0 CvStatus.no_timeout, Event.submitTask 1,
    Event.threadFunc 0 CvStatus.no_timeout, Event.threadFunc 0 CvStatus.no_timeout,
    Event.threadFunc 0 CvStatus.no_timeout]

/-- The default (Fixed) pool after `start(2)` and `fixedSteps`. -/
def fixedPool : ThreadPool Nat :=
  { threads_ := [(1, { threadId_ := 1 }), (0, { threadId_ := 0 })]
    initThreadSize_ := 2
    threadSizeMax_ := 1024
    curThreadSize_ := 2
    idleThreadSize_ := 2
    taskQue_ := []
    taskSize_ := 0
    taskQueSizeMax_ := 2
    poolMode_ := PoolMode.MODE_FIXED
    isPoolRunning_ := true
    generateId_ := 2
    workers := [{ threadid := 1, lastTime := 0, pc := Pc.spawned },
                { threadid := 0, lastTime := 0, pc := Pc.waitPlain }]
    clock := 0 }

/-- A new pool switched to Cached mode, not started. -/
def cachedNew : ThreadPool Nat :=
  { ThreadPool.new Nat 0 0 with poolMode_ := PoolMode.MODE_CACHED }

/-- The pool `cachedNew` after one submission: the task is queued and worker 0
has been added. -/
def cachedGrown : ThreadPool Nat :=
  { cachedNew with
    threads_ := [(0, { threadId_ := 0 })]
    curThreadSize_ := 1
    idleThreadSize_ := 1
    taskQue_ := [1]
    taskSize_ := 1
    generateId_ := 1
    workers := [{ threadid := 0, lastTime := 0, pc := Pc.spawned }] }

/-- Events of the FIFO example on a new pool: capacity 3, `start(2)`, both
workers enter their loops, tasks 10, 11 and 12 are queued, task 13 is refused
on the full queue, worker 1 pops 10, worker 0 pops 11, task 14 is queued,
worker 1 finishes its task and pops 12. -/
def fifoRun : List (Event Nat) :=
  [Event.setTaskQueMaxThreshHold 3, Event.start 2,
    Event.threadFunc 0 CvStatus.no_timeout, Event.threadFunc 1 CvStatus.no_timeout,
    Event.submitTask 10, Event.submitTask 11, Event.submitTask 12, Event.submitTask 13,
    Event.threadFunc 1 CvStatus.no_timeout, Event.threadFunc 0 CvStatus.no_timeout,
    Event.submitTask 14,
    Event.threadFunc 1 CvStatus.no_timeout, Event.threadFunc 1 CvStatus.no_timeout]

/-- The pool after `fifoRun`: task 14 is still queued, the workers hold tasks
12 and 11. -/
def fifoPool : ThreadPool Nat :=
  { threads_ := [(1, { threadId_ := 1 }), (0, { threadId_ := 0 })]
    initThreadSize_ := 2
    threadSizeMax_ := 1024
    curThreadSize_ := 2
    idleThreadSize_ := 0
    taskQue_ := [14]
    taskSize_ := 1
    taskQueSizeMax_ := 3
    poolMode_ := PoolMode.MODE_FIXED
    isPoolRunning_ := true
    generateId_ := 2
    workers := [{ threadid := 1, lastTime := 0, pc := Pc.running 12 },
                { threadid := 0, lastTime := 0, pc := Pc.running 11 }]
    clock := 0 }

/-! ## Lemmas on the map and on the worker list -/

theorem mapFind_eq_none_of_lt (m : List (Int × Thread)) (key : Int)
    (h : ∀ p ∈ m, p.1 < key) : mapFind m key = none := by
  induction m with
  | nil => rfl
  | cons p rest ih =>
    obtain ⟨k, v⟩ := p
    have hk : k < key := h (k, v) (List.mem_cons_self _ _)
    have hne : ¬ k = key := by omega
    simp only [mapFind, hne, if_false]
    exact ih (fun q hq => h q (List.mem_cons_of_mem _ hq))

theorem mapFind_eq_none_of_gt (m : List (Int × Thread)) (key : Int)
    (h : ∀ p ∈ m, key < p.1) : mapFind m key = none := by
  induction m with
  | nil => rfl
  | cons p rest ih =>
    obtain ⟨k, v⟩ := p
    have hk : key < k := h (k, v) (List.mem_cons_self _ _)
    have hne : ¬ k = key := by omega
    simp only [mapFind, hne, if_false]
    exact ih (fun q hq => h q (List.mem_cons_of_mem _ hq))

theorem mapFind_mapEmplace_self (m : List (Int × Thread)) (key : Int) (v : Thread) :
    ∃ th, mapFind (mapEmplace m key v) key = some th := by
  unfold mapEmplace
  cases h : mapFind m key with
  | some th => exact ⟨th, by simp [h]⟩
  | none => exact ⟨v, by simp [mapFind]⟩

theorem mem_mapEmplace (m : List (Int × Thread)) (key : Int) (v : Thread) (p : Int × Thread)
    (h : p ∈ mapEmplace m key v) : p = (key, v) ∨ p ∈ m := by
  unfold mapEmplace at h
  cases hf : mapFind m key with
  | some th => rw [hf] at h; exact Or.inr h
  | none =>
    rw [hf] at h
    rcases List.mem_cons.mp h with h1 | h1
    · exact Or.inl h1
    · exact Or.inr h1

theorem mem_mapErase (m : List (Int × Thread)) (key : Int) (p : Int × Thread)
    (h : p ∈ mapErase m key) : p ∈ m := by
  induction m with
  | nil => simp [mapErase] at h
  | cons q rest ih =>
    obtain ⟨k, v⟩ := q
    by_cases hk : k = key
    · simp only [mapErase, hk, if_true] at h
      exact List.mem_cons_of_mem _ (ih h)
    · simp only [mapErase, hk, if_false] at h
      rcases List.mem_cons.mp h with h1 | h1
      · rw [h1]; exact List.mem_cons_self _ _
      · exact List.mem_cons_of_mem _ (ih h1)

theorem findWorker_threadid {τ : Type} (ws : List (Worker τ)) (threadid : Int) (w : Worker τ)
    (h : findWorker ws threadid = some w) : w.threadid = threadid := by
  induction ws with
  | nil => simp [findWorker] at h
  | cons x rest ih =>
    by_cases hx : x.threadid = threadid
    · simp only [findWorker, hx, if_true, Option.some.injEq] at h
      rw [← h]; exact hx
    · simp only [findWorker, hx, if_false] at h
      exact ih h

theorem findWorker_mem {τ : Type} (ws : List (Worker τ)) (threadid : Int) (w : Worker τ)
    (h : findWorker ws threadid = some w) : w ∈ ws := by
  induction ws with
  | nil => simp [findWorker] at h
  | cons x rest ih =>
    by_cases hx : x.threadid = threadid
    · simp only [findWorker, hx, if_true, Option.some.injEq] at h
      rw [← h]; exact List.mem_cons_self _ _
    · simp only [findWorker, hx, if_false] at h
      exact List.mem_cons_of_mem _ (ih h)

theorem length_setWorker {τ : Type} (ws : List (Worker τ)) (threadid : Int) (w1 : Worker τ) :
    (setWorker ws threadid w1).length = ws.length := by
  induction ws with
  | nil => rfl
  | cons x rest ih =>
    by_cases hx : x.threadid = threadid
    · simp [setWorker, hx]
    · simp [setWorker, hx, ih]

theorem mem_setWorker {τ : Type} (ws : List (Worker τ)) (threadid : Int) (w1 x : Worker τ)
    (h : x ∈ setWorker ws threadid w1) : x = w1 ∨ x ∈ ws := by
  induction ws with
  | nil => simp [setWorker] at h
  | cons y rest ih =>
    by_cases hy : y.threadid = threadid
    · simp only [setWorker, hy, if_true] at h
      rcases List.mem_cons.mp h with h1 | h1
      · exact Or.inl h1
      · exact Or.inr (List.mem_cons_of_mem _ h1)
    · simp only [setWorker, hy, if_false] at h
      rcases List.mem_cons.mp h with h1 | h1
      · rw [h1]; exact Or.inr (List.mem_cons_self _ _)
      · rcases ih h1 with h2 | h2
        · exact Or.inl h2
        · exact Or.inr (List.mem_cons_of_mem _ h2)

theorem mem_removeWorker {τ : Type} (ws : List (Worker τ)) (threadid : Int) (x : Worker τ)
    (h : x ∈ removeWorker ws threadid) : x ∈ ws := by
  induction ws with
  | nil => simp [removeWorker] at h
  | cons y rest ih =>
    by_cases hy : y.threadid = threadid
    · simp only [removeWorker, hy, if_true] at h
      exact List.mem_cons_of_mem _ h
    · simp only [removeWorker, hy, if_false] at h
      rcases List.mem_cons.mp h with h1 | h1
      · rw [h1]; exact List.mem_cons_self _ _
      · exact List.mem_cons_of_mem _ (ih h1)

theorem length_removeWorker {τ : Type} (ws : List (Worker τ)) (threadid : Int) (w : Worker τ)
    (h : findWorker ws threadid = some w) :
    (removeWorker ws threadid).length + 1 = ws.length := by
  induction ws with
  | nil => simp [findWorker] at h
  | cons x rest ih =>
    by_cases hx : x.threadid = threadid
    · simp [removeWorker, hx]
    · simp only [findWorker, hx, if_false] at h
      simp [removeWorker, hx, ih h]

theorem busy_cons {τ : Type} (w : Worker τ) (ws : List (Worker τ)) :
    busy (w :: ws) = busy ws + busyOne w := by
  simp [busy, busyOne, List.countP_cons]

theorem busy_le_length {τ : Type} (ws : List (Worker τ)) : busy ws ≤ ws.length := by
  unfold busy
  exact List.countP_le_length _

theorem busy_setWorker {τ : Type} (ws : List (Worker τ)) (threadid : Int) (w w1 : Worker τ)
    (h : findWorker ws threadid = some w) :
    busy (setWorker ws threadid w1) + busyOne w = busy ws + busyOne w1 := by
  induction ws with
  | nil => simp [findWorker] at h
  | cons x rest ih =>
    by_cases hx : x.threadid = threadid
    · simp only [findWorker, hx, if_true, Option.some.injEq] at h
      subst h
      simp only [setWorker, hx, if_true, busy_cons]
      omega
    · simp only [findWorker, hx, if_false] at h
      simp only [setWorker, hx, if_false, busy_cons]
      have := ih h
      omega

theorem busy_removeWorker {τ : Type} (ws : List (Worker τ)) (threadid : Int) (w : Worker τ)
    (h : findWorker ws threadid = some w) :
    busy (removeWorker ws threadid) + busyOne w = busy ws := by
  induction ws with
  | nil => simp [findWorker] at h
  | cons x rest ih =>
    by_cases hx : x.threadid = threadid
    · simp only [findWorker, hx, if_true, Option.some.injEq] at h
      subst h
      simp only [removeWorker, hx, if_true, busy_cons]
    · simp only [findWorker, hx, if_false] at h
      simp only [removeWorker, hx, if_false, busy_cons]
      have := ih h
      omega

/-! ## Configuration after `start` (C2) -/

/-- C2: on a pool whose running flag is set, `setMode`,
`setTaskQueMaxThreshHold` and `setThreadSizeThreshHold` return the pool they
were given, for every argument; in particular `poolMode_`, `taskQueSizeMax_`
and `threadSizeMax_` keep their values. -/
theorem setters_ignored_while_running {τ : Type} (s : ThreadPool τ) (mode : PoolMode)
    (a b : Int) (h : s.isPoolRunning_ = true) :
    setMode s mode = s ∧ setTaskQueMaxThreshHold s a = s ∧ setThreadSizeThreshHold s b = s := by
  simp [setMode, setTaskQueMaxThreshHold, setThreadSizeThreshHold, checkRunningState, h]

theorem setters_ignored_while_running_witness :
    cachedPool.isPoolRunning_ = true ∧
    setMode cachedPool PoolMode.MODE_FIXED = cachedPool ∧
    setTaskQueMaxThreshHold cachedPool 5 = cachedPool ∧
    setThreadSizeThreshHold cachedPool 7 = cachedPool :=
  ⟨rfl, setters_ignored_while_running cachedPool PoolMode.MODE_FIXED 5 7 rfl⟩

/-! ## Submission on a full queue (C1) -/

theorem submitTask_full_returns_default_aux {τ : Type} (ρ : Type) [Inhabited ρ]
    (s : ThreadPool τ) (task : τ) (h : notFull s = false) :
    submitTask ρ s task = Except.ok (s, Future.value default) := by
  simp [submitTask, h]


/-- C1 as stated fails: with the default capacity 2 and two queued tasks, the
submission of a third task returns a future that already holds the value
`RType()` (here `0`), not an exception, and the pool is unchanged. -/
theorem submitTask_full_counterexample :
    run (ThreadPool.new Nat 0 0) [Event.submitTask 1, Event.submitTask 2] = Except.ok fullPool ∧
    notFull fullPool = false ∧
    submitTask Int fullPool 3 = Except.ok (fullPool, Future.value 0) ∧
    ¬ ∃ s what, submitTask Int fullPool 3 = Except.ok (s, Future.exception what) := by
  refine ⟨rfl, rfl, rfl, ?_⟩
  rintro ⟨s, what, h⟩
  have h2 : submitTask Int fullPool 3 = Except.ok (fullPool, Future.value 0) := rfl
  rw [h2] at h
  injection h with h
  injection h with _ h
  cases h

/-- C1 (amended): when the wait on not-full ends with the queue still full,
`submitTask` leaves the pool unchanged (the task is neither queued nor run)
and returns a future that already holds the value-initialised `RType()`. -/
theorem submitTask_full_returns_default {τ : Type} (ρ : Type) [Inhabited ρ]
    (s : ThreadPool τ) (task : τ) (h : notFull s = false) :
    submitTask ρ s task = Except.ok (s, Future.value default) := by
  simp [submitTask, h]

theorem submitTask_full_returns_default_witness :
    notFull fullPool = false ∧
    submitTask Int fullPool 3 = Except.ok (fullPool, Future.value default) :=
  ⟨rfl, submitTask_full_returns_default Int fullPool 3 rfl⟩

/-! ## `start` and the process-wide id generator (C3) -/

theorem createThreads_keys_ge {τ : Type} (k : Nat) (g : Int) :
    ∀ s : ThreadPool τ, (∀ p ∈ s.threads_, g ≤ p.1) → g ≤ s.generateId_ →
      ∀ p ∈ (createThreads k s).threads_, g ≤ p.1 := by
  induction k with
  | zero => intro s h1 _ p hp; exact h1 p hp
  | succ k ih =>
    intro s h1 h2 p hp
    refine ih (createThread s) ?_ ?_ p hp
    · intro q hq
      rcases mem_mapEmplace _ _ _ _ hq with h3 | h3
      · rw [h3]; exact h2
      · exact h1 q h3
    · show g ≤ s.generateId_ + 1
      omega

/-- C3 fails on the code: on a pool with an empty worker mapping, whenever
`Thread::generateId_` is positive (another pool has created a worker) and
`n > 0`, `start(n)` stores its workers under the keys `generateId_`, ... and
then evaluates `threads_[0]->start()` on a key that is missing. -/
theorem start_faults_when_generateId_positive {τ : Type} (s : ThreadPool τ) (n : Int)
    (hs : s.threads_ = []) (hg : 0 < s.generateId_) (hn : 0 < n) :
    start s n = Except.error (Fault.nullThread 0) := by
  obtain ⟨k, hk⟩ : ∃ k, n.toNat = k + 1 := ⟨n.toNat - 1, by omega⟩
  have hkeys : ∀ p ∈ (createThreads (k + 1)
      ({ s with isPoolRunning_ := true, initThreadSize_ := n, curThreadSize_ := n } :
        ThreadPool τ)).threads_, 0 < p.1 := by
    intro p hp
    have := createThreads_keys_ge (k + 1) s.generateId_
      ({ s with isPoolRunning_ := true, initThreadSize_ := n, curThreadSize_ := n } :
        ThreadPool τ) (by simp [hs]) (le_refl _) p hp
    omega
  have hnone := mapFind_eq_none_of_gt _ 0 hkeys
  simp only [start, hk, startThreads, launch, hnone]

theorem start_faults_when_generateId_positive_witness :
    (ThreadPool.new Nat 1 0).threads_ = [] ∧ (0 : Int) < (ThreadPool.new Nat 1 0).generateId_ ∧
    (0 : Int) < 1 ∧ start (ThreadPool.new Nat 1 0) 1 = Except.error (Fault.nullThread 0) :=
  ⟨rfl, by decide, by decide,
    start_faults_when_generateId_positive (ThreadPool.new Nat 1 0) 1 rfl (by decide) (by decide)⟩

/-! ## Worker steps on a stopping pool (C10) -/

/-- C10 as stated fails: one worker at its loop head, one queued task, running
flag cleared (reached by `start(1)`, the worker's first step, a submission and
the destructor's first statement); the worker's next step pops the task and
holds it for execution, and the worker stays in the mapping. -/
theorem stopped_worker_counterexample :
    run (ThreadPool.new Nat 0 0)
      [Event.start 1, Event.threadFunc 0 CvStatus.no_timeout, Event.submitTask 7, Event.stop]
      = Except.ok stoppedPool ∧
    stoppedPool.isPoolRunning_ = false ∧
    (threadFunc stoppedPool 0 CvStatus.no_timeout).2 = some 7 ∧
    (threadFunc stoppedPool 0 CvStatus.no_timeout).1.taskQue_ = [] ∧
    (threadFunc stoppedPool 0 CvStatus.no_timeout).1.workers
      = [{ threadid := 0, lastTime := 0, pc := Pc.running 7 }] ∧
    (threadFunc stoppedPool 0 CvStatus.no_timeout).1.threads_ = [(0, { threadId_ := 0 })] :=
  ⟨rfl, rfl, rfl, rfl, rfl, rfl⟩

/-- C10 (amended): a fetch step of a worker (at the loop head or woken from a
wait) taken while the running flag is false and the queue is empty makes the
worker exit, erased from the mapping, with no task taken, in either mode;
with a non-empty queue the step pops the head task for execution, unless the
worker woke from a timed-out `wait_for` and meets the idle-exit test, in which
case it exits without a task. -/
theorem stopped_worker_step {τ : Type} (s : ThreadPool τ) (threadid : Int) (status : CvStatus)
    (w : Worker τ) (hrun : s.isPoolRunning_ = false)
    (hw : findWorker s.workers threadid = some w)
    (hpc : w.pc = Pc.loopHead ∨ w.pc = Pc.waitFor ∨ w.pc = Pc.waitPlain) :
    (s.taskQue_ = [] →
      (threadFunc s threadid status).2 = none ∧
      (threadFunc s threadid status).1.workers = removeWorker s.workers threadid ∧
      (threadFunc s threadid status).1.threads_ = mapErase s.threads_ threadid ∧
      (threadFunc s threadid status).1.taskQue_ = []) ∧
    (∀ task rest, s.taskQue_ = task :: rest →
      ((w.pc = Pc.waitFor ∧ idleTooLong s w status = true) →
        threadFunc s threadid status = (exitIdle s threadid, none)) ∧
      (¬ (w.pc = Pc.waitFor ∧ idleTooLong s w status = true) →
        threadFunc s threadid status =
          ({ s with
              idleThreadSize_ := s.idleThreadSize_ - 1
              taskQue_ := rest
              taskSize_ := s.taskSize_ - 1
              workers := setWorker s.workers threadid { w with pc := Pc.running task } },
            some task))) := by
  have hid := findWorker_threadid _ _ _ hw
  constructor
  · intro hq
    rcases hpc with h | h | h
    · simp [threadFunc, hw, h, fetchTask, hq, hrun, exitStopped, hid]
    · by_cases hi : idleTooLong s w status = true
      · simp [threadFunc, hw, h, hi, exitIdle, hq]
      · simp [threadFunc, hw, h, hi, fetchTask, hq, hrun, exitStopped, hid]
    · simp [threadFunc, hw, h, fetchTask, hq, hrun, exitStopped, hid]
  · intro task rest hq
    rcases hpc with h | h | h
    · simp [threadFunc, hw, h, fetchTask, hq, hid]
    · by_cases hi : idleTooLong s w status = true
      · simp [threadFunc, hw, h, hi]
      · simp [threadFunc, hw, h, hi, fetchTask, hq, hid]
    · simp [threadFunc, hw, h, fetchTask, hq, hid]

theorem stopped_worker_step_witness :
    (threadFunc ({ stoppedPool with taskQue_ := [], taskSize_ := 0 } : ThreadPool Nat) 0
        CvStatus.timeout).1.workers = [] ∧
    (threadFunc ({ stoppedPool with taskQue_ := [], taskSize_ := 0 } : ThreadPool Nat) 0
        CvStatus.timeout).1.threads_ = [] :=
  have h := (stopped_worker_step ({ stoppedPool with taskQue_ := [], taskSize_ := 0 } : ThreadPool Nat)
    0 CvStatus.timeout { threadid := 0, lastTime := 0, pc := Pc.loopHead } rfl rfl (Or.inl rfl)).1 rfl
  ⟨h.2.1, h.2.2.1⟩

/-! ## What `start` and `submitTask` do to the members -/

theorem createThreads_fields {τ : Type} (k : Nat) :
    ∀ s : ThreadPool τ,
      (createThreads k s).initThreadSize_ = s.initThreadSize_ ∧
      (createThreads k s).threadSizeMax_ = s.threadSizeMax_ ∧
      (createThreads k s).curThreadSize_ = s.curThreadSize_ ∧
      (createThreads k s).idleThreadSize_ = s.idleThreadSize_ ∧
      (createThreads k s).taskQue_ = s.taskQue_ ∧
      (createThreads k s).taskSize_ = s.taskSize_ ∧
      (createThreads k s).taskQueSizeMax_ = s.taskQueSizeMax_ ∧
      (createThreads k s).poolMode_ = s.poolMode_ ∧
      (createThreads k s).isPoolRunning_ = s.isPoolRunning_ ∧
      (createThreads k s).workers = s.workers ∧
      (createThreads k s).clock = s.clock ∧
      (createThreads k s).generateId_ = s.generateId_ + k := by
  induction k with
  | zero => intro s; simp [createThreads]
  | succ k ih =>
    intro s
    have h := ih (createThread s)
    simp only [createThreads]
    simp only [createThread] at h
    refine ⟨h.1, h.2.1, h.2.2.1, h.2.2.2.1, h.2.2.2.2.1, h.2.2.2.2.2.1, h.2.2.2.2.2.2.1,
      h.2.2.2.2.2.2.2.1, h.2.2.2.2.2.2.2.2.1, h.2.2.2.2.2.2.2.2.2.1, h.2.2.2.2.2.2.2.2.2.2.1, ?_⟩
    have h12 := h.2.2.2.2.2.2.2.2.2.2.2
    simp only [createThread]
    rw [h12]
    push_cast
    ring

theorem startThreads_launched {τ : Type} (k : Nat) :
    ∀ (i : Int) (s t : ThreadPool τ), startThreads k i s = Except.ok t → Launched k s t := by
  induction k with
  | zero =>
    intro i s t h
    simp only [startThreads, Except.ok.injEq] at h
    subst h
    constructor <;> first | rfl | simp | exact fun w hw => Or.inl hw
  | succ k ih =>
    intro i s t h
    cases hf : mapFind s.threads_ i with
    | none => simp [startThreads, launch, hf] at h
    | some th =>
      simp only [startThreads, launch, hf] at h
      have L := ih _ _ _ h
      constructor
      · exact L.threads_
      · exact L.generateId_
      · exact L.initThreadSize_
      · exact L.threadSizeMax_
      · exact L.curThreadSize_
      · rw [L.idleThreadSize_]; push_cast; ring
      · exact L.taskQue_
      · exact L.taskSize_
      · exact L.taskQueSizeMax_
      · exact L.poolMode_
      · exact L.isPoolRunning_
      · exact L.clock
      · rw [L.length]; simp only [List.length_cons]; omega
      · rw [L.busy, busy_cons]; simp [busyOne, Pc.holdsTask]
      · intro w hw
        rcases L.fresh w hw with h1 | h1
        · rcases List.mem_cons.mp h1 with h2 | h2
          · right; rw [h2]
          · left; exact h2
        · right; exact h1

/-- The three outcomes of `submitTask`: rejected on a full queue, queued, or
queued with one more worker. -/
theorem submitTask_cases {τ : Type} (ρ : Type) [Inhabited ρ] (s : ThreadPool τ) (task : τ) :
    (notFull s = false ∧ submitTask ρ s task = Except.ok (s, Future.value default)) ∨
    (notFull s = true ∧ needsThread (enqueue s task) = false ∧
      submitTask ρ s task = Except.ok (enqueue s task, Future.ofTask task)) ∨
    (notFull s = true ∧ needsThread (enqueue s task) = true ∧
      ∃ th : Thread, submitTask ρ s task = Except.ok
        ({ s with
            taskQue_ := s.taskQue_ ++ [task]
            taskSize_ := s.taskSize_ + 1
            threads_ := mapEmplace s.threads_ s.generateId_ { threadId_ := s.generateId_ }
            generateId_ := s.generateId_ + 1
            workers := { threadid := th.threadId_, lastTime := 0, pc := Pc.spawned } :: s.workers
            curThreadSize_ := s.curThreadSize_ + 1
            idleThreadSize_ := s.idleThreadSize_ + 1 }, Future.ofTask task)) := by
  cases hf : notFull s with
  | false => left; exact ⟨rfl, by simp [submitTask, hf]⟩
  | true =>
    right
    cases hn : needsThread (enqueue s task) with
    | false => left; exact ⟨rfl, rfl, by simp [submitTask, hf, hn]⟩
    | true =>
      right
      refine ⟨rfl, rfl, ?_⟩
      obtain ⟨th, hth⟩ := mapFind_mapEmplace_self s.threads_ s.generateId_
        { threadId_ := s.generateId_ }
      refine ⟨th, ?_⟩
      simp only [submitTask, hf, hn, if_true]
      simp [launch, createThread, enqueue, hth]

/-! ## The worker step, case by case -/

theorem fetchTask_workerStep {τ : Type} (s : ThreadPool τ) (threadid : Int) (status : CvStatus)
    (w : Worker τ) (hw : findWorker s.workers threadid = some w) (hpc : w.pc.holdsTask = false) :
    WorkerStep s threadid status (fetchTask s w).1 (fetchTask s w).2 := by
  have hid := findWorker_threadid _ _ _ hw
  subst hid
  unfold fetchTask
  split
  · rename_i hq
    split
    · rename_i hr
      exact WorkerStep.stopExit w hw hpc hq (by simpa using hr)
    · rename_i hr
      split
      · rename_i hm
        exact WorkerStep.waitTimed w hw hpc hq (by simpa using hr) hm
      · rename_i hm
        exact WorkerStep.waitUntimed w hw hpc hq (by simpa using hr)
          (by cases h : s.poolMode_ <;> simp_all)
  · rename_i task rest hq
    exact WorkerStep.dequeue w task rest hw hpc hq

theorem threadFunc_workerStep {τ : Type} (s : ThreadPool τ) (threadid : Int) (status : CvStatus) :
    WorkerStep s threadid status (threadFunc s threadid status).1
      (threadFunc s threadid status).2 := by
  cases hw : findWorker s.workers threadid with
  | none =>
    simp only [threadFunc, hw]
    exact WorkerStep.absent hw
  | some w =>
    cases hpc : w.pc with
    | spawned =>
      simp only [threadFunc, hw, hpc]
      exact WorkerStep.enter w hw hpc
    | loopHead =>
      simp only [threadFunc, hw, hpc]
      exact fetchTask_workerStep s threadid status w hw (by rw [hpc]; rfl)
    | waitFor =>
      cases hi : idleTooLong s w status with
      | true =>
        simp only [threadFunc, hw, hpc, hi, if_true]
        exact WorkerStep.idleExit w hw hpc hi
      | false =>
        simp only [threadFunc, hw, hpc, hi]
        exact fetchTask_workerStep s threadid status w hw (by rw [hpc]; rfl)
    | waitPlain =>
      simp only [threadFunc, hw, hpc]
      exact fetchTask_workerStep s threadid status w hw (by rw [hpc]; rfl)
    | running task =>
      simp only [threadFunc, hw, hpc]
      exact WorkerStep.finish w task hw hpc

/-! ## Counter invariant (C5) -/

theorem busyOne_of_holdsTask_false {τ : Type} (w : Worker τ) (h : w.pc.holdsTask = false) :
    busyOne w = 0 := by
  simp [busyOne, h]

theorem invCount_workerStep {τ : Type} {s t : ThreadPool τ} {threadid : Int} {status : CvStatus}
    {o : Option τ} (h : InvCount s) (W : WorkerStep s threadid status t o) : InvCount t := by
  have hr := h.running
  have hs := h.sum
  have hl := h.len
  have hc := h.ceil
  have hbl := busy_le_length s.workers
  cases W with
  | absent _ => exact h
  | enter w hw hpc =>
    have b := busy_setWorker _ _ _ { w with lastTime := s.clock, pc := Pc.loopHead } hw
    have l := length_setWorker s.workers threadid { w with lastTime := s.clock, pc := Pc.loopHead }
    have b1 : busyOne w = 0 := by simp [busyOne, hpc, Pc.holdsTask]
    have b2 : busyOne ({ w with lastTime := s.clock, pc := Pc.loopHead } : Worker τ) = 0 := rfl
    exact ⟨hr, by dsimp only; omega, by dsimp only; omega, hc⟩
  | finish w task hw hpc =>
    have b := busy_setWorker _ _ _ { w with lastTime := s.clock, pc := Pc.loopHead } hw
    have l := length_setWorker s.workers threadid { w with lastTime := s.clock, pc := Pc.loopHead }
    have b1 : busyOne w = 1 := by simp [busyOne, hpc, Pc.holdsTask]
    have b2 : busyOne ({ w with lastTime := s.clock, pc := Pc.loopHead } : Worker τ) = 0 := rfl
    exact ⟨hr, by dsimp only; omega, by dsimp only; omega, hc⟩
  | idleExit w hw hpc hi =>
    have b := busy_removeWorker _ _ _ hw
    have l := length_removeWorker _ _ _ hw
    have b1 : busyOne w = 0 := by simp [busyOne, hpc, Pc.holdsTask]
    exact ⟨hr, by dsimp only [exitIdle]; omega, by dsimp only [exitIdle]; omega,
      by dsimp only [exitIdle]; omega⟩
  | stopExit w hw hpc hq hstop => rw [hr] at hstop; cases hstop
  | waitTimed w hw hpc hq _ hm =>
    have b := busy_setWorker _ _ _ { w with pc := Pc.waitFor } hw
    have l := length_setWorker s.workers threadid { w with pc := Pc.waitFor }
    have b1 := busyOne_of_holdsTask_false w hpc
    have b2 : busyOne ({ w with pc := Pc.waitFor } : Worker τ) = 0 := rfl
    exact ⟨hr, by dsimp only; omega, by dsimp only; omega, hc⟩
  | waitUntimed w hw hpc hq _ hm =>
    have b := busy_setWorker _ _ _ { w with pc := Pc.waitPlain } hw
    have l := length_setWorker s.workers threadid { w with pc := Pc.waitPlain }
    have b1 := busyOne_of_holdsTask_false w hpc
    have b2 : busyOne ({ w with pc := Pc.waitPlain } : Worker τ) = 0 := rfl
    exact ⟨hr, by dsimp only; omega, by dsimp only; omega, hc⟩
  | dequeue w task rest hw hpc hq =>
    have b := busy_setWorker _ _ _ { w with pc := Pc.running task } hw
    have l := length_setWorker s.workers threadid { w with pc := Pc.running task }
    have b1 := busyOne_of_holdsTask_false w hpc
    have b2 : busyOne ({ w with pc := Pc.running task } : Worker τ) = 1 := rfl
    exact ⟨hr, by dsimp only; omega, by dsimp only; omega, hc⟩

theorem needsThread_true {τ : Type} (s : ThreadPool τ) (h : needsThread s = true) :
    s.poolMode_ = PoolMode.MODE_CACHED ∧ s.taskSize_ > s.idleThreadSize_ ∧
      s.curThreadSize_ < s.threadSizeMax_ := by
  simpa [needsThread, and_assoc] using h

theorem invCount_step {τ : Type} {s t : ThreadPool τ} {e : Event τ} (h : InvCount s)
    (he : e.isPoolStep = true) (hst : step s e = Except.ok t) : InvCount t := by
  have hr := h.running
  cases e with
  | setMode mode =>
    simp only [step, setMode, checkRunningState, hr, if_true, Except.ok.injEq] at hst
    subst hst; exact h
  | setTaskQueMaxThreshHold n =>
    simp only [step, setTaskQueMaxThreshHold, checkRunningState, hr, if_true,
      Except.ok.injEq] at hst
    subst hst; exact h
  | setThreadSizeThreshHold n =>
    simp only [step, setThreadSizeThreshHold, checkRunningState, hr, if_true,
      Except.ok.injEq] at hst
    subst hst; exact h
  | start n => simp [Event.isPoolStep] at he
  | stop => simp [Event.isPoolStep] at he
  | tick d =>
    simp only [step, Except.ok.injEq] at hst
    subst hst; exact ⟨hr, h.sum, h.len, h.ceil⟩
  | threadFunc threadid status =>
    simp only [step, Except.ok.injEq] at hst
    subst hst
    exact invCount_workerStep h (threadFunc_workerStep s threadid status)
  | submitTask task =>
    simp only [step] at hst
    have hs := h.sum
    have hl := h.len
    have hc := h.ceil
    rcases submitTask_cases Unit s task with ⟨_, h1⟩ | ⟨_, _, h1⟩ | ⟨_, hn, th, h1⟩
    · rw [h1] at hst
      simp only [Except.ok.injEq] at hst
      subst hst; exact h
    · rw [h1] at hst
      simp only [Except.ok.injEq] at hst
      subst hst; exact ⟨hr, hs, hl, hc⟩
    · rw [h1] at hst
      simp only [Except.ok.injEq] at hst
      subst hst
      have hlt : s.curThreadSize_ < s.threadSizeMax_ := (needsThread_true _ hn).2.2
      have b := busy_cons ({ threadid := th.threadId_, lastTime := 0, pc := Pc.spawned } : Worker τ)
        s.workers
      have b2 : busyOne ({ threadid := th.threadId_, lastTime := 0, pc := Pc.spawned } : Worker τ)
        = 0 := rfl
      exact ⟨hr, by dsimp only; omega, by dsimp only [List.length_cons]; omega,
        by dsimp only; omega⟩

theorem invCount_run {τ : Type} (es : List (Event τ)) :
    ∀ s t : ThreadPool τ, InvCount s → (∀ e ∈ es, e.isPoolStep = true) →
      run s es = Except.ok t → InvCount t := by
  induction es with
  | nil =>
    intro s t h _ hrun
    simp only [run, Except.ok.injEq] at hrun
    subst hrun; exact h
  | cons e es ih =>
    intro s t h hes hrun
    cases hst : step s e with
    | error f => simp [run, hst] at hrun
    | ok s1 =>
      simp only [run, hst] at hrun
      exact ih s1 t (invCount_step h (hes e (List.mem_cons_self _ _)) hst)
        (fun x hx => hes x (List.mem_cons_of_mem _ hx)) hrun

/-! ## From construction to `start` -/

theorem configured_new (τ : Type) (g now : Int) : Configured (ThreadPool.new τ g now) := by
  simp [Configured, ThreadPool.new]

theorem configured_step {τ : Type} {s t : ThreadPool τ} {e : Event τ} (h : Configured s)
    (he : e.isConfig = true) (hst : step s e = Except.ok t) : Configured t := by
  obtain ⟨h1, h2, h3, h4, h5, h6, h7, h8⟩ := h
  cases e with
  | setMode mode =>
    simp only [step, Except.ok.injEq] at hst
    subst hst
    simp [Configured, setMode, checkRunningState, h1, h2, h3, h4, h5, h6, h7, h8]
  | setTaskQueMaxThreshHold n =>
    simp only [step, Except.ok.injEq] at hst
    subst hst
    simp [Configured, setTaskQueMaxThreshHold, checkRunningState, h1, h2, h3, h4, h5, h6, h7, h8]
  | setThreadSizeThreshHold n =>
    simp only [step, Except.ok.injEq] at hst
    subst hst
    by_cases hm : s.poolMode_ = PoolMode.MODE_CACHED
    · simp [Configured, setThreadSizeThreshHold, checkRunningState, hm, h1, h2, h3, h4, h5, h6,
        h7, h8]
    · simp [Configured, setThreadSizeThreshHold, checkRunningState, hm, h1, h2, h3, h4, h5, h6,
        h7, h8]
  | start n => simp [Event.isConfig] at he
  | stop => simp [Event.isConfig] at he
  | tick d => simp [Event.isConfig] at he
  | threadFunc threadid status => simp [Event.isConfig] at he
  | submitTask task => simp [Event.isConfig] at he

theorem configured_run {τ : Type} (es : List (Event τ)) :
    ∀ s t : ThreadPool τ, Configured s → (∀ e ∈ es, e.isConfig = true) →
      run s es = Except.ok t → Configured t := by
  induction es with
  | nil =>
    intro s t h _ hrun
    simp only [run, Except.ok.injEq] at hrun
    subst hrun; exact h
  | cons e es ih =>
    intro s t h hes hrun
    cases hst : step s e with
    | error f => simp [run, hst] at hrun
    | ok s1 =>
      simp only [run, hst] at hrun
      exact ih s1 t (configured_step h (hes e (List.mem_cons_self _ _)) hst)
        (fun x hx => hes x (List.mem_cons_of_mem _ hx)) hrun

/-- A successful `start(n)` sets the flag and the two sizes, creates
`n` threads and launches `n` workers. -/
theorem start_launched {τ : Type} (s t : ThreadPool τ) (n : Int)
    (h : start s n = Except.ok t) :
    Launched n.toNat
      (createThreads n.toNat
        { s with isPoolRunning_ := true, initThreadSize_ := n, curThreadSize_ := n }) t :=
  startThreads_launched _ _ _ _ h

theorem run_start_cons {τ : Type} (s t : ThreadPool τ) (n : Int) (es : List (Event τ))
    (h : run s (Event.start n :: es) = Except.ok t) :
    ∃ s1, start s n = Except.ok s1 ∧ run s1 es = Except.ok t := by
  cases hst : start s n with
  | error f => simp [run, step, hst] at h
  | ok s1 => exact ⟨s1, rfl, by simpa [run, step, hst] using h⟩

theorem start_invCount {τ : Type} (s t : ThreadPool τ) (n : Int) (hs : Configured s)
    (hn : 0 ≤ n) (h : start s n = Except.ok t) : InvCount t := by
  have L := start_launched s t n h
  have F := createThreads_fields n.toNat
    ({ s with isPoolRunning_ := true, initThreadSize_ := n, curThreadSize_ := n } : ThreadPool τ)
  obtain ⟨_, _, hw, _, _, hi, hc, _⟩ := hs
  obtain ⟨f1, f2, f3, f4, _, _, _, _, f9, f10, _, _⟩ := F
  have e1 := L.isPoolRunning_
  have e2 := L.idleThreadSize_
  have e3 := L.curThreadSize_
  have e4 := L.length
  have e5 := L.busy
  have e6 := L.initThreadSize_
  have e7 := L.threadSizeMax_
  rw [f9] at e1
  rw [f4] at e2
  rw [f3] at e3
  rw [f10] at e4 e5
  rw [f1] at e6
  dsimp only at e1 e2 e3 e4 e5 e6
  rw [hw] at e4 e5
  rw [hi] at e2
  have hb : busy ([] : List (Worker τ)) = 0 := rfl
  rw [hb] at e5
  simp only [List.length_nil] at e4
  have ht : ((n.toNat : Nat) : Int) = n := Int.toNat_of_nonneg hn
  refine ⟨e1, ?_, ?_, ?_⟩
  · rw [e2, e3, e5]; push_cast; omega
  · rw [e3, e4]; push_cast; omega
  · rw [e3, e6]; exact le_max_left _ _

/-! ## Counters (C5) -/

/-- C5: on a pool that was constructed, configured, started once with
`n >= 0` threads and then driven by any interleaving of submissions and worker
steps (first statement, fetch, wake-up, idle exit, task completion; the
passing of time and ignored configuration calls included), the counters
satisfy `0 <= idleThreadSize_ <= curThreadSize_ <= max(initThreadSize_,
threadSizeMax_)`, whatever mode was configured. -/
theorem counters_bounded {τ : Type} (g now n : Int) (cfg es : List (Event τ))
    (s0 s : ThreadPool τ)
    (hcfg : ∀ e ∈ cfg, e.isConfig = true)
    (h0 : run (ThreadPool.new τ g now) cfg = Except.ok s0)
    (hn : 0 ≤ n)
    (hes : ∀ e ∈ es, e.isPoolStep = true)
    (h : run s0 (Event.start n :: es) = Except.ok s) :
    0 ≤ s.idleThreadSize_ ∧ s.idleThreadSize_ ≤ s.curThreadSize_ ∧
      s.curThreadSize_ ≤ max s.initThreadSize_ s.threadSizeMax_ := by
  obtain ⟨s1, h1, h2⟩ := run_start_cons s0 s n es h
  have I := invCount_run es s1 s
    (start_invCount s0 s1 n (configured_run cfg _ _ (configured_new τ g now) hcfg h0) hn h1)
    hes h2
  have hb := busy_le_length s.workers
  have hs := I.sum
  have hl := I.len
  exact ⟨by omega, by omega, I.ceil⟩

/-! ## Queue bound (C6) -/

theorem toSizeT_le (c : Int) (hc : 0 ≤ c) : toSizeT c ≤ c := by
  unfold toSizeT
  omega

theorem notFull_true {τ : Type} (s : ThreadPool τ) (h : notFull s = true) :
    (s.taskQue_.length : Int) < toSizeT s.taskQueSizeMax_ := by
  simpa [notFull] using h

theorem invQueue_workerStep {τ : Type} {c : Int} {s t : ThreadPool τ} {threadid : Int}
    {status : CvStatus} {o : Option τ} (h : InvQueue c s)
    (W : WorkerStep s threadid status t o) : InvQueue c t := by
  have hr := h.running
  have hc := h.cap
  have hs := h.size
  have hb := h.bound
  cases W with
  | absent _ => exact h
  | enter w hw hpc => exact ⟨hr, hc, hs, hb⟩
  | finish w task hw hpc => exact ⟨hr, hc, hs, hb⟩
  | idleExit w hw hpc hi => exact ⟨hr, hc, hs, hb⟩
  | stopExit w hw hpc hq hstop => rw [hr] at hstop; cases hstop
  | waitTimed w hw hpc hq _ hm => exact ⟨hr, hc, hs, hb⟩
  | waitUntimed w hw hpc hq _ hm => exact ⟨hr, hc, hs, hb⟩
  | dequeue w task rest hw hpc hq =>
    rw [hq] at hs hb
    simp only [List.length_cons] at hs hb
    refine ⟨hr, hc, ?_, ?_⟩
    · dsimp only; rw [hs]; push_cast; omega
    · intro h0
      have := hb h0
      dsimp only
      push_cast at this
      omega

theorem invQueue_step {τ : Type} {c : Int} {s t : ThreadPool τ} {e : Event τ}
    (h : InvQueue c s) (he : e.isPoolStep = true) (hst : step s e = Except.ok t) :
    InvQueue c t := by
  have hr := h.running
  cases e with
  | setMode mode =>
    simp only [step, setMode, checkRunningState, hr, if_true, Except.ok.injEq] at hst
    subst hst; exact h
  | setTaskQueMaxThreshHold n =>
    simp only [step, setTaskQueMaxThreshHold, checkRunningState, hr, if_true,
      Except.ok.injEq] at hst
    subst hst; exact h
  | setThreadSizeThreshHold n =>
    simp only [step, setThreadSizeThreshHold, checkRunningState, hr, if_true,
      Except.ok.injEq] at hst
    subst hst; exact h
  | start n => simp [Event.isPoolStep] at he
  | stop => simp [Event.isPoolStep] at he
  | tick d =>
    simp only [step, Except.ok.injEq] at hst
    subst hst; exact ⟨hr, h.cap, h.size, h.bound⟩
  | threadFunc threadid status =>
    simp only [step, Except.ok.injEq] at hst
    subst hst
    exact invQueue_workerStep h (threadFunc_workerStep s threadid status)
  | submitTask task =>
    simp only [step] at hst
    have hc := h.cap
    have hs := h.size
    have hb := h.bound
    rcases submitTask_cases Unit s task with ⟨_, h1⟩ | ⟨hf, _, h1⟩ | ⟨hf, _, th, h1⟩
    · rw [h1] at hst
      simp only [Except.ok.injEq] at hst
      subst hst; exact h
    · rw [h1] at hst
      simp only [Except.ok.injEq] at hst
      subst hst
      have hlt := notFull_true s hf
      rw [hc] at hlt
      refine ⟨hr, hc, ?_, ?_⟩
      · simp only [enqueue, List.length_append, List.length_singleton]
        rw [hs]; push_cast; rfl
      · intro h0
        have := toSizeT_le c h0
        simp only [enqueue, List.length_append, List.length_singleton]
        push_cast
        omega
    · rw [h1] at hst
      simp only [Except.ok.injEq] at hst
      subst hst
      have hlt := notFull_true s hf
      rw [hc] at hlt
      refine ⟨hr, hc, ?_, ?_⟩
      · simp only [List.length_append, List.length_singleton]
        rw [hs]; push_cast; rfl
      · intro h0
        have := toSizeT_le c h0
        simp only [List.length_append, List.length_singleton]
        push_cast
        omega

theorem invQueue_run {τ : Type} {c : Int} (es : List (Event τ)) :
    ∀ s t : ThreadPool τ, InvQueue c s → (∀ e ∈ es, e.isPoolStep = true) →
      run s es = Except.ok t → InvQueue c t := by
  induction es with
  | nil =>
    intro s t h _ hrun
    simp only [run, Except.ok.injEq] at hrun
    subst hrun; exact h
  | cons e es ih =>
    intro s t h hes hrun
    cases hst : step s e with
    | error f => simp [run, hst] at hrun
    | ok s1 =>
      simp only [run, hst] at hrun
      exact ih s1 t (invQueue_step h (hes e (List.mem_cons_self _ _)) hst)
        (fun x hx => hes x (List.mem_cons_of_mem _ hx)) hrun

theorem start_invQueue {τ : Type} (s t : ThreadPool τ) (n : Int) (hs : Configured s)
    (h : start s n = Except.ok t) : InvQueue s.taskQueSizeMax_ t := by
  have L := start_launched s t n h
  have F := createThreads_fields n.toNat
    ({ s with isPoolRunning_ := true, initThreadSize_ := n, curThreadSize_ := n } : ThreadPool τ)
  obtain ⟨_, _, _, hq, hz, _, _, _⟩ := hs
  obtain ⟨_, _, _, _, f5, f6, f7, _, f9, _, _, _⟩ := F
  have e1 := L.isPoolRunning_
  have e2 := L.taskQue_
  have e3 := L.taskSize_
  have e4 := L.taskQueSizeMax_
  rw [f9] at e1
  rw [f5] at e2
  rw [f6] at e3
  rw [f7] at e4
  dsimp only at e1 e2 e3 e4
  refine ⟨e1, e4, ?_, ?_⟩
  · rw [e3, e2, hq, hz]; rfl
  · intro h0; rw [e2, hq]; simpa using h0

/-- C6: on a pool configured with capacity `c >= 0` before `start`, in every
state reached by an interleaving of submissions and worker steps,
`taskSize_` is the length of `taskQue_` and `0 <= taskSize_ <= c`; a
submission that finds room appends its task, and then the queue held fewer
than `c` tasks; a submission that finds the queue full returns the pool as it
was. -/
theorem queue_bounded {τ : Type} (g now n c : Int) (cfg es : List (Event τ))
    (s0 s : ThreadPool τ)
    (hcfg : ∀ e ∈ cfg, e.isConfig = true)
    (h0 : run (ThreadPool.new τ g now) cfg = Except.ok s0)
    (hc0 : s0.taskQueSizeMax_ = c)
    (hc : 0 ≤ c)
    (hes : ∀ e ∈ es, e.isPoolStep = true)
    (h : run s0 (Event.start n :: es) = Except.ok s) :
    s.taskSize_ = s.taskQue_.length ∧ 0 ≤ s.taskSize_ ∧ s.taskSize_ ≤ c ∧
    ∀ task : τ,
      (notFull s = true →
        (s.taskQue_.length : Int) < c ∧
        ∃ t fut, submitTask Unit s task = Except.ok (t, fut) ∧
          t.taskQue_ = s.taskQue_ ++ [task] ∧ t.taskSize_ = s.taskSize_ + 1) ∧
      (notFull s = false →
        submitTask Unit s task = Except.ok (s, Future.value ())) := by
  obtain ⟨s1, h1, h2⟩ := run_start_cons s0 s n es h
  have I0 := start_invQueue s0 s1 n
    (configured_run cfg _ _ (configured_new τ g now) hcfg h0) h1
  rw [hc0] at I0
  have I := invQueue_run es s1 s I0 hes h2
  have hs := I.size
  have hb := I.bound hc
  refine ⟨hs, by omega, by omega, ?_⟩
  intro task
  constructor
  · intro hf
    have hlt := notFull_true s hf
    rw [I.cap] at hlt
    have := toSizeT_le c hc
    refine ⟨by omega, ?_⟩
    rcases submitTask_cases Unit s task with ⟨hf2, _⟩ | ⟨_, _, h3⟩ | ⟨_, _, th, h3⟩
    · rw [hf] at hf2; cases hf2
    · exact ⟨_, _, h3, rfl, rfl⟩
    · exact ⟨_, _, h3, rfl, rfl⟩
  · intro hf
    exact submitTask_full_returns_default_aux Unit s task hf

/-! ## Mode invariant (C8, C9) -/

theorem idleTooLong_true {τ : Type} (s : ThreadPool τ) (w : Worker τ) (status : CvStatus)
    (h : idleTooLong s w status = true) :
    status = CvStatus.timeout ∧ THREAD_MAX_IDLE_TIME ≤ idleSeconds s w ∧
      s.initThreadSize_ < s.curThreadSize_ := by
  simpa [idleTooLong, and_assoc] using h

theorem timed_setWorker {τ : Type} {m : PoolMode} (ws : List (Worker τ)) (threadid : Int)
    (w1 : Worker τ) (h : ∀ w ∈ ws, w.pc = Pc.waitFor → m = PoolMode.MODE_CACHED)
    (h1 : w1.pc = Pc.waitFor → m = PoolMode.MODE_CACHED) :
    ∀ w ∈ setWorker ws threadid w1, w.pc = Pc.waitFor → m = PoolMode.MODE_CACHED := by
  intro w hw hpc
  rcases mem_setWorker _ _ _ _ hw with h2 | h2
  · rw [h2] at hpc; exact h1 hpc
  · exact h w h2 hpc

theorem invMode_workerStep {τ : Type} {n : Int} {m : PoolMode} {s t : ThreadPool τ}
    {threadid : Int} {status : CvStatus} {o : Option τ} (h : InvMode n m s)
    (W : WorkerStep s threadid status t o) : InvMode n m t := by
  have hr := h.running
  have hi := h.init
  have hm := h.mode
  have hf := h.floor
  have ht := h.timed
  have hx := h.fixed
  cases W with
  | absent _ => exact h
  | enter w hw hpc =>
    exact ⟨hr, hi, hm, hf, timed_setWorker _ _ _ ht (fun hc => by cases hc), hx⟩
  | finish w task hw hpc =>
    exact ⟨hr, hi, hm, hf, timed_setWorker _ _ _ ht (fun hc => by cases hc), hx⟩
  | idleExit w hw hpc hlong =>
    have hc : m = PoolMode.MODE_CACHED := ht w (findWorker_mem _ _ _ hw) hpc
    have hgt := (idleTooLong_true s w status hlong).2.2
    refine ⟨hr, hi, hm, ?_, ?_, ?_⟩
    · dsimp only [exitIdle]; omega
    · intro x hxm hxpc
      exact ht x (mem_removeWorker _ _ _ hxm) hxpc
    · intro hfix; rw [hc] at hfix; cases hfix
  | stopExit w hw hpc hq hstop => rw [hr] at hstop; cases hstop
  | waitTimed w hw hpc hq _ hmode =>
    exact ⟨hr, hi, hm, hf, timed_setWorker _ _ _ ht (fun _ => by rw [← hm, hmode]), hx⟩
  | waitUntimed w hw hpc hq _ hmode =>
    exact ⟨hr, hi, hm, hf, timed_setWorker _ _ _ ht (fun hc => by cases hc), hx⟩
  | dequeue w task rest hw hpc hq =>
    exact ⟨hr, hi, hm, hf, timed_setWorker _ _ _ ht (fun hc => by cases hc), hx⟩

theorem invMode_step {τ : Type} {n : Int} {m : PoolMode} {s t : ThreadPool τ} {e : Event τ}
    (h : InvMode n m s) (he : e.isPoolStep = true) (hst : step s e = Except.ok t) :
    InvMode n m t := by
  have hr := h.running
  cases e with
  | setMode mode =>
    simp only [step, setMode, checkRunningState, hr, if_true, Except.ok.injEq] at hst
    subst hst; exact h
  | setTaskQueMaxThreshHold k =>
    simp only [step, setTaskQueMaxThreshHold, checkRunningState, hr, if_true,
      Except.ok.injEq] at hst
    subst hst; exact h
  | setThreadSizeThreshHold k =>
    simp only [step, setThreadSizeThreshHold, checkRunningState, hr, if_true,
      Except.ok.injEq] at hst
    subst hst; exact h
  | start k => simp [Event.isPoolStep] at he
  | stop => simp [Event.isPoolStep] at he
  | tick d =>
    simp only [step, Except.ok.injEq] at hst
    subst hst; exact ⟨hr, h.init, h.mode, h.floor, h.timed, h.fixed⟩
  | threadFunc threadid status =>
    simp only [step, Except.ok.injEq] at hst
    subst hst
    exact invMode_workerStep h (threadFunc_workerStep s threadid status)
  | submitTask task =>
    simp only [step] at hst
    rcases submitTask_cases Unit s task with ⟨_, h1⟩ | ⟨_, _, h1⟩ | ⟨_, hn, th, h1⟩
    · rw [h1] at hst
      simp only [Except.ok.injEq] at hst
      subst hst; exact h
    · rw [h1] at hst
      simp only [Except.ok.injEq] at hst
      subst hst; exact ⟨hr, h.init, h.mode, h.floor, h.timed, h.fixed⟩
    · rw [h1] at hst
      simp only [Except.ok.injEq] at hst
      subst hst
      have hc : s.poolMode_ = PoolMode.MODE_CACHED := (needsThread_true _ hn).1
      have hf := h.floor
      refine ⟨hr, h.init, h.mode, ?_, ?_, ?_⟩
      · dsimp only; omega
      · intro x hxm hxpc
        rcases List.mem_cons.mp hxm with h2 | h2
        · rw [h2] at hxpc; cases hxpc
        · exact h.timed x h2 hxpc
      · intro hfix
        have := h.mode
        rw [hfix, hc] at this
        cases this

theorem invMode_run {τ : Type} {n : Int} {m : PoolMode} (es : List (Event τ)) :
    ∀ s t : ThreadPool τ, InvMode n m s → (∀ e ∈ es, e.isPoolStep = true) →
      run s es = Except.ok t → InvMode n m t := by
  induction es with
  | nil =>
    intro s t h _ hrun
    simp only [run, Except.ok.injEq] at hrun
    subst hrun; exact h
  | cons e es ih =>
    intro s t h hes hrun
    cases hst : step s e with
    | error f => simp [run, hst] at hrun
    | ok s1 =>
      simp only [run, hst] at hrun
      exact ih s1 t (invMode_step h (hes e (List.mem_cons_self _ _)) hst)
        (fun x hx => hes x (List.mem_cons_of_mem _ hx)) hrun

theorem start_invMode {τ : Type} (s t : ThreadPool τ) (n : Int) (hs : Configured s)
    (h : start s n = Except.ok t) : InvMode n s.poolMode_ t := by
  have L := start_launched s t n h
  have F := createThreads_fields n.toNat
    ({ s with isPoolRunning_ := true, initThreadSize_ := n, curThreadSize_ := n } : ThreadPool τ)
  obtain ⟨_, _, hw, _, _, _, _, _⟩ := hs
  obtain ⟨f1, _, f3, _, _, _, _, f8, f9, f10, _, _⟩ := F
  have e1 := L.isPoolRunning_
  have e2 := L.initThreadSize_
  have e3 := L.curThreadSize_
  have e4 := L.poolMode_
  have e5 := L.fresh
  rw [f9] at e1
  rw [f1] at e2
  rw [f3] at e3
  rw [f8] at e4
  rw [f10] at e5
  dsimp only at e1 e2 e3 e4 e5
  refine ⟨e1, e2, e4, by rw [e3], ?_, fun _ => e3⟩
  intro w hwm hpc
  rcases e5 w hwm with h1 | h1
  · rw [hw] at h1; cases h1
  · rw [h1] at hpc; cases hpc

/-- C8: on a pool configured in Fixed mode and started with `n` threads,
`curThreadSize_` is `n` (and so is `initThreadSize_`) in every state reached
by an interleaving of submissions and worker steps: no submission adds a
worker and no worker leaves for idleness. -/
theorem fixed_mode_thread_count {τ : Type} (g now n : Int) (cfg es : List (Event τ))
    (s0 s : ThreadPool τ)
    (hcfg : ∀ e ∈ cfg, e.isConfig = true)
    (h0 : run (ThreadPool.new τ g now) cfg = Except.ok s0)
    (hmode : s0.poolMode_ = PoolMode.MODE_FIXED)
    (hes : ∀ e ∈ es, e.isPoolStep = true)
    (h : run s0 (Event.start n :: es) = Except.ok s) :
    s.curThreadSize_ = n ∧ s.initThreadSize_ = n ∧ s.poolMode_ = PoolMode.MODE_FIXED := by
  obtain ⟨s1, h1, h2⟩ := run_start_cons s0 s n es h
  have I := invMode_run es s1 s
    (start_invMode s0 s1 n (configured_run cfg _ _ (configured_new τ g now) hcfg h0) h1) hes h2
  exact ⟨I.fixed hmode, I.init, by rw [I.mode, hmode]⟩

/-- C9: in every state `s` reached after `start(n)` by an interleaving of
submissions and worker steps the pool is running and
`initThreadSize_ <= curThreadSize_`; and whenever a step from `s` makes the
number of live workers drop, that step is the wake-up of a worker `threadid`
from a timed-out `wait_for`, the mode is Cached, the worker has been idle for
at least `THREAD_MAX_IDLE_TIME` seconds, `curThreadSize_ > initThreadSize_`,
and the step erases `threadid` from the mapping and decrements
`curThreadSize_` and `idleThreadSize_` by one. -/
theorem idle_exit_only_above_floor {τ : Type} (g now n : Int) (cfg es : List (Event τ))
    (s0 s : ThreadPool τ)
    (hcfg : ∀ e ∈ cfg, e.isConfig = true)
    (h0 : run (ThreadPool.new τ g now) cfg = Except.ok s0)
    (hes : ∀ e ∈ es, e.isPoolStep = true)
    (h : run s0 (Event.start n :: es) = Except.ok s) :
    s.isPoolRunning_ = true ∧ s.initThreadSize_ ≤ s.curThreadSize_ ∧
    ∀ (e : Event τ) (t : ThreadPool τ), e.isPoolStep = true → step s e = Except.ok t →
      t.workers.length < s.workers.length →
      ∃ threadid w, e = Event.threadFunc threadid CvStatus.timeout ∧
        findWorker s.workers threadid = some w ∧ w.pc = Pc.waitFor ∧
        s.poolMode_ = PoolMode.MODE_CACHED ∧
        THREAD_MAX_IDLE_TIME ≤ idleSeconds s w ∧
        s.initThreadSize_ < s.curThreadSize_ ∧
        t.threads_ = mapErase s.threads_ threadid ∧
        t.workers = removeWorker s.workers threadid ∧
        t.curThreadSize_ = s.curThreadSize_ - 1 ∧
        t.idleThreadSize_ = s.idleThreadSize_ - 1 := by
  obtain ⟨s1, h1, h2⟩ := run_start_cons s0 s n es h
  have I := invMode_run es s1 s
    (start_invMode s0 s1 n (configured_run cfg _ _ (configured_new τ g now) hcfg h0) h1) hes h2
  have hr := I.running
  refine ⟨hr, by rw [I.init]; exact I.floor, ?_⟩
  intro e t he hst hlen
  cases e with
  | setMode mode =>
    simp only [step, setMode, checkRunningState, hr, if_true, Except.ok.injEq] at hst
    subst hst; omega
  | setTaskQueMaxThreshHold k =>
    simp only [step, setTaskQueMaxThreshHold, checkRunningState, hr, if_true,
      Except.ok.injEq] at hst
    subst hst; omega
  | setThreadSizeThreshHold k =>
    simp only [step, setThreadSizeThreshHold, checkRunningState, hr, if_true,
      Except.ok.injEq] at hst
    subst hst; omega
  | start k => simp [Event.isPoolStep] at he
  | stop => simp [Event.isPoolStep] at he
  | tick d =>
    simp only [step, Except.ok.injEq] at hst
    subst hst
    dsimp only at hlen
    omega
  | submitTask task =>
    simp only [step] at hst
    rcases submitTask_cases Unit s task with ⟨_, h3⟩ | ⟨_, _, h3⟩ | ⟨_, _, th, h3⟩
    · rw [h3] at hst
      simp only [Except.ok.injEq] at hst
      subst hst; omega
    · rw [h3] at hst
      simp only [Except.ok.injEq] at hst
      subst hst
      simp only [enqueue] at hlen
      omega
    · rw [h3] at hst
      simp only [Except.ok.injEq] at hst
      subst hst
      simp only [List.length_cons] at hlen
      omega
  | threadFunc threadid status =>
    simp only [step, Except.ok.injEq] at hst
    have W := threadFunc_workerStep s threadid status
    rw [hst] at W
    generalize (threadFunc s threadid status).2 = o at W
    cases W with
    | absent _ => omega
    | enter w hw hpc =>
      simp only [length_setWorker] at hlen
      omega
    | finish w task hw hpc =>
      simp only [length_setWorker] at hlen
      omega
    | idleExit w hw hpc hlong =>
      obtain ⟨hs1, hs2, hs3⟩ := idleTooLong_true s w status hlong
      subst hs1
      have hc : s.poolMode_ = PoolMode.MODE_CACHED := by
        rw [I.mode]; exact I.timed w (findWorker_mem _ _ _ hw) hpc
      exact ⟨threadid, w, rfl, hw, hpc, hc, hs2, hs3, rfl, rfl, rfl, rfl⟩
    | stopExit w hw hpc hq hstop => rw [hr] at hstop; cases hstop
    | waitTimed w hw hpc hq _ hmode =>
      simp only [length_setWorker] at hlen
      omega
    | waitUntimed w hw hpc hq _ hmode =>
      simp only [length_setWorker] at hlen
      omega
    | dequeue w task rest hw hpc hq =>
      simp only [length_setWorker] at hlen
      omega

/-! ## Fresh worker ids and elastic growth (C7) -/

theorem freshIds_createThread {τ : Type} (s : ThreadPool τ) (h : FreshIds s) :
    FreshIds (createThread s) := by
  intro p hp
  show p.1 < s.generateId_ + 1
  rcases mem_mapEmplace _ _ _ _ hp with h1 | h1
  · rw [h1]; show s.generateId_ < s.generateId_ + 1; omega
  · have := h p h1; omega

theorem freshIds_createThreads {τ : Type} (k : Nat) :
    ∀ s : ThreadPool τ, FreshIds s → FreshIds (createThreads k s) := by
  induction k with
  | zero => intro s h; exact h
  | succ k ih => intro s h; exact ih _ (freshIds_createThread s h)

theorem freshIds_workerStep {τ : Type} {s t : ThreadPool τ} {threadid : Int}
    {status : CvStatus} {o : Option τ} (h : FreshIds s)
    (W : WorkerStep s threadid status t o) : FreshIds t := by
  cases W with
  | absent _ => exact h
  | enter w hw hpc => exact h
  | finish w task hw hpc => exact h
  | idleExit w hw hpc hi => exact fun p hp => h p (mem_mapErase _ _ _ hp)
  | stopExit w hw hpc hq hstop => exact fun p hp => h p (mem_mapErase _ _ _ hp)
  | waitTimed w hw hpc hq _ hm => exact h
  | waitUntimed w hw hpc hq _ hm => exact h
  | dequeue w task rest hw hpc hq => exact h

theorem freshIds_step {τ : Type} {s t : ThreadPool τ} {e : Event τ} (h : FreshIds s)
    (hst : step s e = Except.ok t) : FreshIds t := by
  cases e with
  | setMode mode =>
    simp only [step, Except.ok.injEq] at hst
    subst hst
    unfold setMode
    split
    · exact h
    · exact h
  | setTaskQueMaxThreshHold k =>
    simp only [step, Except.ok.injEq] at hst
    subst hst
    unfold setTaskQueMaxThreshHold
    split
    · exact h
    · exact h
  | setThreadSizeThreshHold k =>
    simp only [step, Except.ok.injEq] at hst
    subst hst
    unfold setThreadSizeThreshHold
    split
    · exact h
    · split
      · exact h
      · exact h
  | start n =>
    simp only [step] at hst
    have L := start_launched s t n hst
    have F := freshIds_createThreads n.toNat
      ({ s with isPoolRunning_ := true, initThreadSize_ := n, curThreadSize_ := n } :
        ThreadPool τ) h
    intro p hp
    rw [L.threads_] at hp
    rw [L.generateId_]
    exact F p hp
  | stop =>
    simp only [step, Except.ok.injEq] at hst
    subst hst; exact h
  | tick d =>
    simp only [step, Except.ok.injEq] at hst
    subst hst; exact h
  | threadFunc threadid status =>
    simp only [step, Except.ok.injEq] at hst
    subst hst
    exact freshIds_workerStep h (threadFunc_workerStep s threadid status)
  | submitTask task =>
    simp only [step] at hst
    rcases submitTask_cases Unit s task with ⟨_, h1⟩ | ⟨_, _, h1⟩ | ⟨_, _, th, h1⟩
    · rw [h1] at hst
      simp only [Except.ok.injEq] at hst
      subst hst; exact h
    · rw [h1] at hst
      simp only [Except.ok.injEq] at hst
      subst hst; exact h
    · rw [h1] at hst
      simp only [Except.ok.injEq] at hst
      subst hst
      exact freshIds_createThread s h

theorem freshIds_run {τ : Type} (es : List (Event τ)) :
    ∀ s t : ThreadPool τ, FreshIds s → run s es = Except.ok t → FreshIds t := by
  induction es with
  | nil =>
    intro s t h hrun
    simp only [run, Except.ok.injEq] at hrun
    subst hrun; exact h
  | cons e es ih =>
    intro s t h hrun
    cases hst : step s e with
    | error f => simp [run, hst] at hrun
    | ok s1 =>
      simp only [run, hst] at hrun
      exact ih s1 t (freshIds_step h hst) hrun

theorem freshIds_new (τ : Type) (g now : Int) : FreshIds (ThreadPool.new τ g now) := by
  intro p hp
  simp [ThreadPool.new] at hp

/-- C7: in every state reached from a new pool by any events, a submission
that finds room appends its task and then, if the mode is Cached and the
incremented `taskSize_` exceeds `idleThreadSize_` and `curThreadSize_` is below
`threadSizeMax_`, adds exactly one worker: `curThreadSize_`,
`idleThreadSize_`, the size of `threads_` and the number of live workers each
grow by one; in every other case those four are unchanged. -/
theorem submitTask_growth {τ : Type} (ρ : Type) [Inhabited ρ] (g now : Int)
    (es : List (Event τ)) (s t : ThreadPool τ) (task : τ) (fut : Future τ ρ)
    (hreach : run (ThreadPool.new τ g now) es = Except.ok s)
    (hroom : notFull s = true)
    (hsub : submitTask ρ s task = Except.ok (t, fut)) :
    t.taskQue_ = s.taskQue_ ++ [task] ∧ t.taskSize_ = s.taskSize_ + 1 ∧
    ((s.poolMode_ = PoolMode.MODE_CACHED ∧ t.taskSize_ > s.idleThreadSize_ ∧
        s.curThreadSize_ < s.threadSizeMax_) →
      t.curThreadSize_ = s.curThreadSize_ + 1 ∧ t.idleThreadSize_ = s.idleThreadSize_ + 1 ∧
      t.threads_.length = s.threads_.length + 1 ∧ t.workers.length = s.workers.length + 1) ∧
    (¬ (s.poolMode_ = PoolMode.MODE_CACHED ∧ t.taskSize_ > s.idleThreadSize_ ∧
        s.curThreadSize_ < s.threadSizeMax_) →
      t.curThreadSize_ = s.curThreadSize_ ∧ t.idleThreadSize_ = s.idleThreadSize_ ∧
      t.threads_ = s.threads_ ∧ t.workers = s.workers) := by
  have hfresh := freshIds_run es _ s (freshIds_new τ g now) hreach
  have hnone : mapFind s.threads_ s.generateId_ = none :=
    mapFind_eq_none_of_lt _ _ hfresh
  rcases submitTask_cases ρ s task with ⟨hf, _⟩ | ⟨_, hn, h1⟩ | ⟨_, hn, th, h1⟩
  · rw [hroom] at hf; cases hf
  · rw [h1] at hsub
    simp only [Except.ok.injEq, Prod.mk.injEq] at hsub
    obtain ⟨hsub, _⟩ := hsub
    subst hsub
    refine ⟨rfl, rfl, ?_, fun _ => ⟨rfl, rfl, rfl, rfl⟩⟩
    intro hc
    have : needsThread (enqueue s task) = true := by
      simpa [needsThread, and_assoc, enqueue] using hc
    rw [hn] at this
    cases this
  · rw [h1] at hsub
    simp only [Except.ok.injEq, Prod.mk.injEq] at hsub
    obtain ⟨hsub, _⟩ := hsub
    subst hsub
    refine ⟨rfl, rfl, fun _ => ⟨rfl, rfl, ?_, ?_⟩, ?_⟩
    · simp [mapEmplace, hnone]
    · simp
    · intro hc
      exfalso
      apply hc
      simpa [needsThread, and_assoc, enqueue] using hn

/-! ## FIFO order (C4) -/

theorem workerStep_queue {τ : Type} {s t : ThreadPool τ} {threadid : Int}
    {status : CvStatus} {o : Option τ} (W : WorkerStep s threadid status t o) :
    s.taskQue_ = o.toList ++ t.taskQue_ := by
  cases W with
  | absent _ => rfl
  | enter w hw hpc => rfl
  | finish w task hw hpc => rfl
  | idleExit w hw hpc hi => rfl
  | stopExit w hw hpc hq hstop => rfl
  | waitTimed w hw hpc hq _ hm => rfl
  | waitUntimed w hw hpc hq _ hm => rfl
  | dequeue w task rest hw hpc hq => rw [hq]; rfl

theorem step_queue {τ : Type} {s t : ThreadPool τ} {e : Event τ}
    (hst : step s e = Except.ok t) :
    s.taskQue_ ++ enqueuedBy s e = dequeuedBy s e ++ t.taskQue_ := by
  cases e with
  | setMode mode =>
    simp only [step, Except.ok.injEq] at hst
    subst hst
    simp only [enqueuedBy, dequeuedBy, List.append_nil, List.nil_append]
    unfold setMode
    split <;> rfl
  | setTaskQueMaxThreshHold k =>
    simp only [step, Except.ok.injEq] at hst
    subst hst
    simp only [enqueuedBy, dequeuedBy, List.append_nil, List.nil_append]
    unfold setTaskQueMaxThreshHold
    split <;> rfl
  | setThreadSizeThreshHold k =>
    simp only [step, Except.ok.injEq] at hst
    subst hst
    simp only [enqueuedBy, dequeuedBy, List.append_nil, List.nil_append]
    unfold setThreadSizeThreshHold
    split
    · rfl
    · split <;> rfl
  | start n =>
    simp only [step] at hst
    have L := start_launched s t n hst
    have F := createThreads_fields n.toNat
      ({ s with isPoolRunning_ := true, initThreadSize_ := n, curThreadSize_ := n } :
        ThreadPool τ)
    have e1 := L.taskQue_
    rw [F.2.2.2.2.1] at e1
    simp only [enqueuedBy, dequeuedBy, List.append_nil, List.nil_append]
    exact e1.symm
  | stop =>
    simp only [step, Except.ok.injEq] at hst
    subst hst; simp [enqueuedBy, dequeuedBy, stop]
  | tick d =>
    simp only [step, Except.ok.injEq] at hst
    subst hst; simp [enqueuedBy, dequeuedBy]
  | threadFunc threadid status =>
    simp only [step, Except.ok.injEq] at hst
    subst hst
    simp only [enqueuedBy, dequeuedBy, List.append_nil]
    exact workerStep_queue (threadFunc_workerStep s threadid status)
  | submitTask task =>
    simp only [step] at hst
    rcases submitTask_cases Unit s task with ⟨_, h1⟩ | ⟨_, _, h1⟩ | ⟨_, _, th, h1⟩
    · rw [h1] at hst
      simp only [Except.ok.injEq] at hst
      subst hst
      simp [enqueuedBy, dequeuedBy, h1]
    · rw [h1] at hst
      simp only [Except.ok.injEq] at hst
      subst hst
      simp [enqueuedBy, dequeuedBy, h1, enqueue]
    · rw [h1] at hst
      simp only [Except.ok.injEq] at hst
      subst hst
      simp [enqueuedBy, dequeuedBy, h1]

theorem run_queue {τ : Type} (es : List (Event τ)) :
    ∀ s t : ThreadPool τ, run s es = Except.ok t →
      s.taskQue_ ++ enqueuedSeq s es = dequeuedSeq s es ++ t.taskQue_ := by
  induction es with
  | nil =>
    intro s t hrun
    simp only [run, Except.ok.injEq] at hrun
    subst hrun
    simp [enqueuedSeq, dequeuedSeq]
  | cons e es ih =>
    intro s t hrun
    cases hst : step s e with
    | error f => simp [run, hst] at hrun
    | ok s1 =>
      simp only [run, hst] at hrun
      have h1 := step_queue hst
      have h2 := ih s1 t hrun
      simp only [enqueuedSeq, dequeuedSeq, hst]
      rw [← List.append_assoc, h1, List.append_assoc, h2, List.append_assoc]

/-- C4: along every run of events on a new pool (configuration, `start`,
submissions, worker steps, time, the destructor's first statement, in any
order), the tasks popped by workers, in the order of the pops, followed by the
tasks still queued, are exactly the tasks appended by submissions, in the
order of the appends; so the popped tasks form an initial segment of the
appended ones. -/
theorem dequeue_order_fifo {τ : Type} (g now : Int) (es : List (Event τ)) (s : ThreadPool τ)
    (h : run (ThreadPool.new τ g now) es = Except.ok s) :
    dequeuedSeq (ThreadPool.new τ g now) es ++ s.taskQue_
        = enqueuedSeq (ThreadPool.new τ g now) es ∧
      dequeuedSeq (ThreadPool.new τ g now) es <+: enqueuedSeq (ThreadPool.new τ g now) es := by
  have h1 := run_queue es _ s h
  have h2 : dequeuedSeq (ThreadPool.new τ g now) es ++ s.taskQue_
      = enqueuedSeq (ThreadPool.new τ g now) es := by
    rw [← h1]; simp [ThreadPool.new]
  exact ⟨h2, ⟨s.taskQue_, h2⟩⟩

/-! ## Runs that do not fault -/

theorem mapFind_mapEmplace_of_isSome (m : List (Int × Thread)) (key j : Int) (v : Thread)
    (h : (mapFind m j).isSome = true) : (mapFind (mapEmplace m key v) j).isSome = true := by
  unfold mapEmplace
  cases hf : mapFind m key with
  | some th => exact h
  | none =>
    by_cases hk : key = j
    · simp [mapFind, hk]
    · simp [mapFind, hk, h]

theorem createThreads_present {τ : Type} (k : Nat) :
    ∀ (s : ThreadPool τ) (j : Int),
      (s.generateId_ ≤ j ∧ j < s.generateId_ + k) ∨ (mapFind s.threads_ j).isSome = true →
      (mapFind (createThreads k s).threads_ j).isSome = true := by
  induction k with
  | zero =>
    intro s j h
    rcases h with ⟨h1, h2⟩ | h
    · exfalso; push_cast at h2; omega
    · exact h
  | succ k ih =>
    intro s j h
    apply ih (createThread s) j
    rcases h with ⟨h1, h2⟩ | h
    · by_cases hj : j = s.generateId_
      · right
        obtain ⟨th, hth⟩ := mapFind_mapEmplace_self s.threads_ s.generateId_
          { threadId_ := s.generateId_ }
        show (mapFind (mapEmplace s.threads_ s.generateId_ { threadId_ := s.generateId_ }) j).isSome
          = true
        rw [hj, hth]; rfl
      · left
        show s.generateId_ + 1 ≤ j ∧ j < s.generateId_ + 1 + k
        push_cast at h2
        omega
    · right
      exact mapFind_mapEmplace_of_isSome _ _ _ _ h

theorem startThreads_ok {τ : Type} (k : Nat) :
    ∀ (i : Int) (s : ThreadPool τ),
      (∀ j, i ≤ j → j < i + k → (mapFind s.threads_ j).isSome = true) →
      ∃ t, startThreads k i s = Except.ok t := by
  induction k with
  | zero => intro i s _; exact ⟨s, rfl⟩
  | succ k ih =>
    intro i s h
    have hi := h i (le_refl _) (by push_cast; omega)
    cases hf : mapFind s.threads_ i with
    | none => rw [hf] at hi; cases hi
    | some th =>
      simp only [startThreads, launch, hf]
      apply ih
      intro j h1 h2
      exact h j (by omega) (by push_cast; omega)

/-- With the id generator at 0, `start(n)` runs to completion for every `n`:
the keys `0 .. n-1` visited by its second loop are the ids drawn by its
first. -/
theorem start_ok_of_generateId_zero {τ : Type} (s : ThreadPool τ) (n : Int)
    (hg : s.generateId_ = 0) : ∃ t, start s n = Except.ok t := by
  unfold start
  apply startThreads_ok
  intro j h1 h2
  apply createThreads_present
  left
  show s.generateId_ ≤ j ∧ j < s.generateId_ + n.toNat
  rw [hg]
  omega

/-- Submissions, worker steps, clock ticks and configuration calls never
fault. -/
theorem step_ok_of_isPoolStep {τ : Type} (s : ThreadPool τ) (e : Event τ)
    (he : e.isPoolStep = true) : ∃ t, step s e = Except.ok t := by
  cases e with
  | setMode mode => exact ⟨_, rfl⟩
  | setTaskQueMaxThreshHold k => exact ⟨_, rfl⟩
  | setThreadSizeThreshHold k => exact ⟨_, rfl⟩
  | start k => simp [Event.isPoolStep] at he
  | stop => simp [Event.isPoolStep] at he
  | tick d => exact ⟨_, rfl⟩
  | threadFunc threadid status => exact ⟨_, rfl⟩
  | submitTask task =>
    have hr : ∃ r, submitTask Unit s task = Except.ok r := by
      rcases submitTask_cases Unit s task with ⟨_, h1⟩ | ⟨_, _, h1⟩ | ⟨_, _, th, h1⟩
      · exact ⟨_, h1⟩
      · exact ⟨_, h1⟩
      · exact ⟨_, h1⟩
    obtain ⟨r, hr⟩ := hr
    exact ⟨r.1, by simp only [step, hr]⟩

theorem run_ok_of_isPoolStep {τ : Type} (es : List (Event τ)) :
    ∀ s : ThreadPool τ, (∀ e ∈ es, e.isPoolStep = true) → ∃ t, run s es = Except.ok t := by
  induction es with
  | nil => intro s _; exact ⟨s, rfl⟩
  | cons e es ih =>
    intro s hes
    obtain ⟨s1, h1⟩ := step_ok_of_isPoolStep s e (hes e (List.mem_cons_self _ _))
    obtain ⟨t, h2⟩ := ih s1 (fun x hx => hes x (List.mem_cons_of_mem _ hx))
    exact ⟨t, by simp only [run, h1, h2]⟩

/-! ## Witnesses on the example pools -/

theorem dequeue_order_fifo_witness :
    run (ThreadPool.new Nat 0 0) fifoRun = Except.ok fifoPool ∧
    enqueuedSeq (ThreadPool.new Nat 0 0) fifoRun = [10, 11, 12, 14] ∧
    dequeuedSeq (ThreadPool.new Nat 0 0) fifoRun = [10, 11, 12] ∧
    fifoPool.taskQue_ = [14] ∧
    dequeuedSeq (ThreadPool.new Nat 0 0) fifoRun ++ fifoPool.taskQue_
      = enqueuedSeq (ThreadPool.new Nat 0 0) fifoRun ∧
    dequeuedSeq (ThreadPool.new Nat 0 0) fifoRun <+: enqueuedSeq (ThreadPool.new Nat 0 0) fifoRun :=
  ⟨rfl, rfl, rfl, rfl, dequeue_order_fifo 0 0 fifoRun fifoPool rfl⟩

theorem counters_bounded_witness :
    run (ThreadPool.new Nat 0 0) cachedSetup = Except.ok cachedConfig ∧
    run cachedConfig (Event.start 1 :: cachedSteps) = Except.ok cachedPool ∧
    0 ≤ cachedPool.idleThreadSize_ ∧ cachedPool.idleThreadSize_ ≤ cachedPool.curThreadSize_ ∧
    cachedPool.curThreadSize_ ≤ max cachedPool.initThreadSize_ cachedPool.threadSizeMax_ :=
  ⟨rfl, rfl, counters_bounded 0 0 1 cachedSetup cachedSteps cachedConfig cachedPool
    (by decide) rfl (by decide) (by decide) rfl⟩

theorem queue_bounded_witness :
    run (ThreadPool.new Nat 0 0) cachedSetup = Except.ok cachedConfig ∧
    run cachedConfig (Event.start 1 :: cachedSteps) = Except.ok cachedPool ∧
    cachedPool.taskSize_ = cachedPool.taskQue_.length ∧ 0 ≤ cachedPool.taskSize_ ∧
    cachedPool.taskSize_ ≤ 3 :=
  have h := queue_bounded 0 0 1 3 cachedSetup cachedSteps cachedConfig cachedPool
    (by decide) rfl rfl (by decide) (by decide) rfl
  ⟨rfl, rfl, h.1, h.2.1, h.2.2.1⟩

theorem submitTask_growth_witness :
    run (ThreadPool.new Nat 0 0) [Event.setMode PoolMode.MODE_CACHED] = Except.ok cachedNew ∧
    submitTask Unit cachedNew 1 = Except.ok (cachedGrown, Future.ofTask 1) ∧
    cachedGrown.curThreadSize_ = cachedNew.curThreadSize_ + 1 ∧
    cachedGrown.idleThreadSize_ = cachedNew.idleThreadSize_ + 1 ∧
    cachedGrown.threads_.length = cachedNew.threads_.length + 1 ∧
    cachedGrown.workers.length = cachedNew.workers.length + 1 :=
  ⟨rfl, rfl,
    (submitTask_growth Unit 0 0 [Event.setMode PoolMode.MODE_CACHED] cachedNew cachedGrown 1
      (Future.ofTask 1) rfl rfl rfl).2.2.1 ⟨rfl, by decide, by decide⟩⟩

theorem fixed_mode_thread_count_witness :
    run (ThreadPool.new Nat 0 0) (Event.start 2 :: fixedSteps) = Except.ok fixedPool ∧
    fixedPool.curThreadSize_ = 2 ∧ fixedPool.initThreadSize_ = 2 ∧
    fixedPool.poolMode_ = PoolMode.MODE_FIXED :=
  ⟨rfl, fixed_mode_thread_count 0 0 2 [] fixedSteps (ThreadPool.new Nat 0 0) fixedPool
    (by decide) rfl rfl (by decide) rfl⟩

theorem idle_exit_only_above_floor_witness :
    run cachedConfig (Event.start 1 :: cachedSteps) = Except.ok cachedPool ∧
    cachedPool.initThreadSize_ ≤ cachedPool.curThreadSize_ ∧
    ∃ threadid w, Event.threadFunc 0 CvStatus.timeout
        = (Event.threadFunc threadid CvStatus.timeout : Event Nat) ∧
      findWorker cachedPool.workers threadid = some w ∧ w.pc = Pc.waitFor ∧
      cachedPool.poolMode_ = PoolMode.MODE_CACHED ∧
      THREAD_MAX_IDLE_TIME ≤ idleSeconds cachedPool w ∧
      cachedPool.initThreadSize_ < cachedPool.curThreadSize_ ∧
      (threadFunc cachedPool 0 CvStatus.timeout).1.threads_ = mapErase cachedPool.threads_ threadid ∧
      (threadFunc cachedPool 0 CvStatus.timeout).1.workers
        = removeWorker cachedPool.workers threadid ∧
      (threadFunc cachedPool 0 CvStatus.timeout).1.curThreadSize_
        = cachedPool.curThreadSize_ - 1 ∧
      (threadFunc cachedPool 0 CvStatus.timeout).1.idleThreadSize_
        = cachedPool.idleThreadSize_ - 1 :=
  have h := idle_exit_only_above_floor 0 0 1 cachedSetup cachedSteps cachedConfig cachedPool
    (by decide) rfl (by decide) rfl
  ⟨rfl, h.2.1,
    h.2.2 (Event.threadFunc 0 CvStatus.timeout) (threadFunc cachedPool 0 CvStatus.timeout).1
      rfl rfl (by decide)⟩

end ThreadPoolSpec
